import Mathlib

/-!
Lookup tables of `includes/lut.hpp`.

A shallow embedding of the leaping-piece tables (king, knight, pawns) that the
header hard-codes, and of the sliding-piece ray engine it declares.

Squares are numbered 0..63, `file = index mod 8`, `rank = index div 8`
(a1 = 0, h1 = 7, a8 = 56, h8 = 63).  A bitboard is a `uint64_t`; it is embedded
as a natural number below `2^64`, bit `i` standing for square `i`.
-/

namespace Lut

/-- A bitboard: the `uint64_t` of the source, bit `i` set when square `i` is a member. -/
abbrev Bitboard := Nat

/-- A square index, 0..63. -/
abbrev Square := Nat

/-- The table type `LUT` of the source: 64 bitboards indexed by square. -/
abbrev LUT := List Bitboard

/-- Subscript `lut[s]` of the source. -/
def LUT.at (l : LUT) (s : Nat) : Nat := l.getD s 0

/-- File (column) of a square. -/
def file (sq : Nat) : Nat := sq % 8

/-- Rank (row) of a square. -/
def rank (sq : Nat) : Nat := sq / 8

/-- Number of squares of a bitboard (bits 0..63 that are set). -/
def popcount (b : Nat) : Nat := ((List.range 64).filter (fun i => b.testBit i)).length

/-- Rank mirror of a bitboard, in the words of the specification: bit `i xor 56`
of the result is set exactly when bit `i` of `b` is set. -/
def flip (b : Nat) : Nat :=
  (List.range 64).foldl (fun acc i => if b.testBit i then acc ||| 2 ^ (i ^^^ 56) else acc) 0

/-- Hard coded king table (lut.hpp, king_lut). -/
def king_lut : LUT :=
  [770, 1797, 3594, 7188, 14376, 28752, 57504, 49216,
   197123, 460039, 920078, 1840156, 3680312, 7360624, 14721248, 12599488,
   50463488, 117769984, 235539968, 471079936, 942159872, 1884319744, 3768639488, 3225468928,
   12918652928, 30149115904, 60298231808, 120596463616, 241192927232, 482385854464, 964771708928, 825720045568,
   3307175149568, 7718173671424, 15436347342848, 30872694685696, 61745389371392, 123490778742784, 246981557485568, 211384331665408,
   846636838289408, 1975852459884544, 3951704919769088, 7903409839538176, 15806819679076352, 31613639358152704, 63227278716305408, 54114388906344448,
   216739030602088448, 505818229730443264, 1011636459460886528, 2023272918921773056, 4046545837843546112, 8093091675687092224, 16186183351374184448, 13853283560024178688,
   144959613005987840, 362258295026614272, 724516590053228544, 1449033180106457088, 2898066360212914176, 5796132720425828352, 11592265440851656704, 4665729213955833856]

/-- Hard coded black pawn capture table (lut.hpp, bpawn_cap_lut). -/
def bpawn_cap_lut : LUT :=
  [0, 0, 0, 0, 0, 0, 0, 0,
   2, 5, 10, 20, 40, 80, 160, 64,
   512, 1280, 2560, 5120, 10240, 20480, 40960, 16384,
   131072, 327680, 655360, 1310720, 2621440, 5242880, 10485760, 4194304,
   33554432, 83886080, 167772160, 335544320, 671088640, 1342177280, 2684354560, 1073741824,
   8589934592, 21474836480, 42949672960, 85899345920, 171798691840, 343597383680, 687194767360, 274877906944,
   2199023255552, 5497558138880, 10995116277760, 21990232555520, 43980465111040, 87960930222080, 175921860444160, 70368744177664,
   562949953421312, 1407374883553280, 2814749767106560, 5629499534213120, 11258999068426240, 22517998136852480, 45035996273704960, 18014398509481984]

/-- Hard coded black pawn forward table (lut.hpp, bpawn_fw_lut). -/
def bpawn_fw_lut : LUT :=
  [0, 0, 0, 0, 0, 0, 0, 0,
   1, 2, 4, 8, 16, 32, 64, 128,
   256, 512, 1024, 2048, 4096, 8192, 16384, 32768,
   65536, 131072, 262144, 524288, 1048576, 2097152, 4194304, 8388608,
   16777216, 33554432, 67108864, 134217728, 268435456, 536870912, 1073741824, 2147483648,
   4294967296, 8589934592, 17179869184, 34359738368, 68719476736, 137438953472, 274877906944, 549755813888,
   1099511627776, 2199023255552, 4398046511104, 8796093022208, 17592186044416, 35184372088832, 70368744177664, 140737488355328,
   281474976710656, 562949953421312, 1125899906842624, 2251799813685248, 4503599627370496, 9007199254740992, 18014398509481984, 36028797018963968]

/-- Hard coded black pawn double forward table (lut.hpp, bpawn_doublefw_lut). -/
def bpawn_doublefw_lut : LUT :=
  [0, 0, 0, 0, 0, 0, 0, 0,
   0, 0, 0, 0, 0, 0, 0, 0,
   0, 0, 0, 0, 0, 0, 0, 0,
   0, 0, 0, 0, 0, 0, 0, 0,
   0, 0, 0, 0, 0, 0, 0, 0,
   0, 0, 0, 0, 0, 0, 0, 0,
   4294967296, 8589934592, 17179869184, 34359738368, 68719476736, 137438953472, 274877906944, 549755813888,
   1099511627776, 0, 0, 0, 0, 0, 0, 0]

/-- Hard coded white pawn capture table (lut.hpp, wpawn_cap_lut). -/
def wpawn_cap_lut : LUT :=
  [512, 1280, 2560, 5120, 10240, 20480, 40960, 16384,
   131072, 327680, 655360, 1310720, 2621440, 5242880, 10485760, 4194304,
   33554432, 83886080, 167772160, 335544320, 671088640, 1342177280, 2684354560, 1073741824,
   8589934592, 21474836480, 42949672960, 85899345920, 171798691840, 343597383680, 687194767360, 274877906944,
   2199023255552, 5497558138880, 10995116277760, 21990232555520, 43980465111040, 87960930222080, 175921860444160, 70368744177664,
   562949953421312, 1407374883553280, 2814749767106560, 5629499534213120, 11258999068426240, 22517998136852480, 45035996273704960, 18014398509481984,
   144115188075855872, 360287970189639680, 720575940379279360, 1441151880758558720, 2882303761517117440, 5764607523034234880, 11529215046068469760, 4611686018427387904,
   0, 0, 0, 0, 0, 0, 0, 0]

/-- Hard coded white pawn forward table (lut.hpp, wpawn_fw_lut). -/
def wpawn_fw_lut : LUT :=
  [256, 512, 1024, 2048, 4096, 8192, 16384, 32768,
   65536, 131072, 262144, 524288, 1048576, 2097152, 4194304, 8388608,
   16777216, 33554432, 67108864, 134217728, 268435456, 536870912, 1073741824, 2147483648,
   4294967296, 8589934592, 17179869184, 34359738368, 68719476736, 137438953472, 274877906944, 549755813888,
   1099511627776, 2199023255552, 4398046511104, 8796093022208, 17592186044416, 35184372088832, 70368744177664, 140737488355328,
   281474976710656, 562949953421312, 1125899906842624, 2251799813685248, 4503599627370496, 9007199254740992, 18014398509481984, 36028797018963968,
   72057594037927936, 144115188075855872, 288230376151711744, 576460752303423488, 1152921504606846976, 2305843009213693952, 4611686018427387904, 9223372036854775808,
   0, 0, 0, 0, 0, 0, 0, 0]

/-- Hard coded white pawn double forward table (lut.hpp, wpawn_doublefw_lut). -/
def wpawn_doublefw_lut : LUT :=
  [0, 0, 0, 0, 0, 0, 0, 0,
   16777216, 33554432, 67108864, 134217728, 268435456, 536870912, 1073741824, 2147483648,
   0, 0, 0, 0, 0, 0, 0, 0,
   0, 0, 0, 0, 0, 0, 0, 0,
   0, 0, 0, 0, 0, 0, 0, 0,
   0, 0, 0, 0, 0, 0, 0, 0,
   0, 0, 0, 0, 0, 0, 0, 0,
   0, 0, 0, 0, 0, 0, 0, 0]

/-- Hard coded knight table (lut.hpp, knight_lut). -/
def knight_lut : LUT :=
  [132096, 329728, 659712, 1319424, 2638848, 5277696, 10489856, 4202496,
   33816580, 84410376, 168886289, 337772578, 675545156, 1351090312, 2685403152, 1075839008,
   8657044482, 21609056261, 43234889994, 86469779988, 172939559976, 345879119952, 687463207072, 275414786112,
   2216203387392, 5531918402816, 11068131838464, 22136263676928, 44272527353856, 88545054707712, 175990581010432, 70506185244672,
   567348067172352, 1416171111120896, 2833441750646784, 5666883501293568, 11333767002587136, 22667534005174272, 45053588738670592, 18049583422636032,
   145241105196122112, 362539804446949376, 725361088165576704, 1450722176331153408, 2901444352662306816, 5802888705324613632, 11533718717099671552, 4620693356194824192,
   288234782788157440, 576469569871282176, 1224997833292120064, 2449995666584240128, 4899991333168480256, 9799982666336960512, 1152939783987658752, 2305878468463689728,
   1128098930098176, 2257297371824128, 4796069720358912, 9592139440717824, 19184278881435648, 38368557762871296, 4679521487814656, 9077567998918656]

/-- Number of colours, `COLOR_NB` of the source. -/
def COLOR_NB : Nat := 2

/-- Pawn attacks per colour (lut.hpp, PawnAttacks). -/
def PawnAttacks : List LUT := [wpawn_cap_lut, bpawn_cap_lut]

/-- Pawn single forward moves per colour (lut.hpp, PawnFW). -/
def PawnFW : List LUT := [wpawn_fw_lut, bpawn_fw_lut]

/-- Pawn double forward moves per colour (lut.hpp, Pawn2FW). -/
def Pawn2FW : List LUT := [wpawn_doublefw_lut, bpawn_doublefw_lut]

/-! ## Sliding-piece ray engine

`lut.hpp` only declares `straight_lines`, `diago_lines`, `rook_landings` and
`bishop_landings`; their bodies are in a translation unit that is not part of the
sources at hand.  The definitions below follow sections 4.1 and 4.3 of the specification
and the parameter order of the declarations. -/

/-- Modelled from the spec: the board-edge test of section 4.1 (the body of the ray engine
declared in lut.hpp is missing).  A file/rank pair is on the board when both coordinates
are in `[0,8)`. -/
def onBoard (f r : Int) : Bool := decide (0 ≤ f ∧ f < 8 ∧ 0 ≤ r ∧ r < 8)

/-- Modelled from the spec: the square index of a file/rank pair, `rank * 8 + file`
(section 3, the inverse of `file = index mod 8`, `rank = index div 8`; the body of the ray
engine declared in lut.hpp is missing). -/
def squareOf (f r : Int) : Nat := (r * 8 + f).toNat

/-- Modelled from the spec: the walk of one direction `(df, dr)` of section 4.3, started
next to the file/rank pair `(f, r)` (the body of the ray engine declared in lut.hpp is
missing).  For the stepped-to square: off the board, stop; friendly, stop without
including it; enemy, include it and stop; otherwise include it and continue.  The first
argument bounds the number of steps. -/
def ray (df dr : Int) (friendly enemy : Nat) : Nat → Int → Int → Nat
  | 0, _, _ => 0
  | fuel + 1, f, r =>
    if onBoard (f + df) (r + dr) then
      if friendly.testBit (squareOf (f + df) (r + dr)) then 0
      else if enemy.testBit (squareOf (f + df) (r + dr)) then 2 ^ squareOf (f + df) (r + dr)
      else 2 ^ squareOf (f + df) (r + dr) ||| ray df dr friendly enemy fuel (f + df) (r + dr)
    else 0

/-- Modelled from the spec: the four straight directions N, S, E, W as (file, rank) steps
(section 4.3; the body of `straight_lines` is missing). -/
def straightDirs : List (Int × Int) := [(0, 1), (0, -1), (1, 0), (-1, 0)]

/-- Modelled from the spec: the four diagonal directions as (file, rank) steps
(section 4.3; the body of `diago_lines` is missing). -/
def diagoDirs : List (Int × Int) := [(1, 1), (-1, 1), (1, -1), (-1, -1)]

/-- Modelled from the spec: the bitwise union over the given directions of the squares
included by the walk from `sq` (section 4.3; the bodies of `straight_lines` and
`diago_lines` are missing).  Eight steps are allowed per direction, one more than a
board of eight files and ranks can take. -/
def lines (dirs : List (Int × Int)) (sq enemy friendly : Nat) : Nat :=
  dirs.foldl (fun acc d => acc ||| ray d.1 d.2 friendly enemy 8 (file sq) (rank sq)) 0

/-- Modelled from the spec: `straight_lines(Square, opponent, friendly)` of lut.hpp, whose
body is missing: the walk of section 4.3 over N, S, E, W. -/
def straight_lines (sq enemy friendly : Nat) : Nat := lines straightDirs sq enemy friendly

/-- Modelled from the spec: `diago_lines(Square, opponent, friendly)` of lut.hpp, whose
body is missing: the walk of section 4.3 over the four diagonals. -/
def diago_lines (sq enemy friendly : Nat) : Nat := lines diagoDirs sq enemy friendly

/-- Modelled from the spec: `rook_landings(Square, friendly, opponent)` of lut.hpp, whose
body is missing: the rook considers the four straight directions. -/
def rook_landings (sq friendly enemy : Nat) : Nat := straight_lines sq enemy friendly

/-- Modelled from the spec: `bishop_landings(Square, friendly, opponent)` of lut.hpp, whose
body is missing: the bishop considers the four diagonal directions. -/
def bishop_landings (sq friendly enemy : Nat) : Nat := diago_lines sq enemy friendly

/-- The `k`-th square from `sq` in direction `d`, as a file/rank pair. -/
def stepFrom (sq : Nat) (d : Int × Int) (k : Nat) : Int × Int :=
  ((file sq : Int) + k * d.1, (rank sq : Int) + k * d.2)

/-- The `k`-th square from `sq` in direction `d`, as a square index. -/
def squareAt (sq : Nat) (d : Int × Int) (k : Nat) : Nat :=
  squareOf (stepFrom sq d k).1 (stepFrom sq d k).2

/-- A direction is a unit step: both components in `{-1, 0, 1}`, not both zero. -/
def unitDir (d : Int × Int) : Bool :=
  decide ((d.1 = -1 ∨ d.1 = 0 ∨ d.1 = 1) ∧ (d.2 = -1 ∨ d.2 = 0 ∨ d.2 = 1) ∧
    (d.1 ≠ 0 ∨ d.2 ≠ 0))

/-- The ray-walk reading of the landing set, in the words of the specification: `t` is the
`k`-th square (`k ≥ 1`) from `sq` along one of the directions, the walk has not left the
board up to there, every earlier square of the walk is empty (neither friendly nor enemy),
and `t` itself is not friendly. -/
def RayReach (dirs : List (Int × Int)) (sq friendly enemy t : Nat) : Prop :=
  ∃ d ∈ dirs, ∃ k : Nat, 1 ≤ k ∧
    (∀ j : Nat, 1 ≤ j → j ≤ k → onBoard (stepFrom sq d j).1 (stepFrom sq d j).2 = true) ∧
    (∀ j : Nat, 1 ≤ j → j < k →
      friendly.testBit (squareAt sq d j) = false ∧ enemy.testBit (squareAt sq d j) = false) ∧
    friendly.testBit (squareAt sq d k) = false ∧ t = squareAt sq d k

/-- Modelled from the spec: `queen_landings(Square, friendly, opponent)` of lut.hpp, whose
body is missing: the queen walks the union of the straight and the diagonal directions,
eight directions in all (section 4.3). -/
def queen_landings (sq friendly enemy : Nat) : Nat :=
  lines (straightDirs ++ diagoDirs) sq enemy friendly

/-- Modelled from the spec: the piece kinds of section 3 (the enumeration `PieceType` of
the source is declared in a header that is missing): five leaping kinds and three sliding
kinds. -/
inductive PieceType where
  | King
  | Knight
  | PawnForward
  | PawnDoubleForward
  | PawnDiagonalCapture
  | Rook
  | Bishop
  | Queen
  deriving DecidableEq

/-- Modelled from the spec: `sliding_peices_landings(PieceType, Square, friendly, opponent)`
of lut.hpp, whose body is missing: the public operation `landings` of section 4.3, defined
for the three sliding kinds; any other kind is outside its domain and yields no result. -/
def sliding_peices_landings (pt : PieceType) (sq friendly enemy : Nat) : Option Nat :=
  match pt with
  | PieceType.Rook => some (rook_landings sq friendly enemy)
  | PieceType.Bishop => some (bishop_landings sq friendly enemy)
  | PieceType.Queen => some (queen_landings sq friendly enemy)
  | _ => none

/-! ## Between-squares table

`lut.hpp` declares `BetweenBB`, `init_lut`, `generate_inBetweenLUT` and
`calculate_inBetween`; their bodies are not part of the sources at hand.  The definitions
below follow section 4.4 of the specification. -/

/-- Modelled from the spec: the unit direction vector from `sq1` toward `sq2`, one of the
eight directions, when the two squares are distinct and share a rank, a file or a diagonal
(section 4.4; the body of `calculate_inBetween` is missing). -/
def unitDirection (sq1 sq2 : Nat) : Option (Int × Int) :=
  let df : Int := (file sq2 : Int) - (file sq1 : Int)
  let dr : Int := (rank sq2 : Int) - (rank sq1 : Int)
  if df = 0 ∧ dr = 0 then none
  else if df = 0 ∨ dr = 0 ∨ df = dr ∨ df = -dr then some (Int.sign df, Int.sign dr)
  else none

/-- Modelled from the spec: the walk of section 4.4 from the file/rank pair `(f, r)` in
direction `d`, accumulating the stepped-to squares until `target` is reached, `target`
excluded (the body of `calculate_inBetween` is missing).  The first argument bounds the
number of steps. -/
def walkBetween (d : Int × Int) (target : Nat) : Nat → Int → Int → Nat
  | 0, _, _ => 0
  | fuel + 1, f, r =>
    if squareOf (f + d.1) (r + d.2) = target then 0
    else 2 ^ squareOf (f + d.1) (r + d.2) ||| walkBetween d target fuel (f + d.1) (r + d.2)

/-- Modelled from the spec: `calculate_inBetween(sq1, sq2)` of lut.hpp, whose body is
missing: empty when the squares are not aligned or equal, otherwise the squares walked from
`sq1` toward `sq2`, both ends excluded (section 4.4). -/
def calculate_inBetween (sq1 sq2 : Nat) : Nat :=
  match unitDirection sq1 sq2 with
  | none => 0
  | some d => walkBetween d sq2 8 (file sq1) (rank sq1)

/-- Modelled from the spec: `generate_inBetweenLUT()` of lut.hpp, whose body is missing: the
64 x 64 table holding `calculate_inBetween(a, b)` at row `a`, column `b`. -/
def generate_inBetweenLUT : List (List Nat) :=
  (List.range 64).map (fun a => (List.range 64).map (fun b => calculate_inBetween a b))

/-- Modelled from the spec: `init_lut()` of lut.hpp, whose body is missing: the one-time
initialisation, which fills the between-squares table. -/
def init_lut : List (List Nat) := generate_inBetweenLUT

/-- The entry `BetweenBB[a][b]` once `init_lut` has run. -/
def BetweenBB (a b : Nat) : Nat := (init_lut.getD a []).getD b 0

/-- Strict betweenness of two numbers: `z` lies strictly between `x` and `y`. -/
def strictlyInside (x y z : Nat) : Prop := (x < z ∧ z < y) ∨ (y < z ∧ z < x)

/-- Two squares share a rank, a file or a diagonal. -/
def aligned (a b : Nat) : Prop :=
  rank a = rank b ∨ file a = file b ∨
  file a + rank b = file b + rank a ∨ file a + rank a = file b + rank b

/-- The squares strictly between two squares, in the words of the specification: `t` is on
the rank, file or diagonal that `a` and `b` share, strictly between them. -/
def StrictlyBetween (a b t : Nat) : Prop :=
  (rank a = rank b ∧ rank t = rank a ∧ strictlyInside (file a) (file b) (file t)) ∨
  (file a = file b ∧ file t = file a ∧ strictlyInside (rank a) (rank b) (rank t)) ∨
  (file a + rank b = file b + rank a ∧ file a + rank t = file t + rank a ∧
    strictlyInside (file a) (file b) (file t)) ∨
  (file a + rank a = file b + rank b ∧ file t + rank t = file a + rank a ∧
    strictlyInside (file a) (file b) (file t))

instance (x y z : Nat) : Decidable (strictlyInside x y z) :=
  inferInstanceAs (Decidable ((x < z ∧ z < y) ∨ (y < z ∧ z < x)))

instance (a b : Nat) : Decidable (aligned a b) :=
  inferInstanceAs (Decidable (rank a = rank b ∨ file a = file b ∨
    file a + rank b = file b + rank a ∨ file a + rank a = file b + rank b))

instance (a b t : Nat) : Decidable (StrictlyBetween a b t) :=
  inferInstanceAs (Decidable (
    (rank a = rank b ∧ rank t = rank a ∧ strictlyInside (file a) (file b) (file t)) ∨
    (file a = file b ∧ file t = file a ∧ strictlyInside (rank a) (rank b) (rank t)) ∨
    (file a + rank b = file b + rank a ∧ file a + rank t = file t + rank a ∧
      strictlyInside (file a) (file b) (file t)) ∨
    (file a + rank a = file b + rank b ∧ file t + rank t = file a + rank a ∧
      strictlyInside (file a) (file b) (file t))))

/-! ## Indexed attack table

`lut.hpp` declares `Rattacks` and `Battacks`, `[64][4096]` arrays addressed by square and
magic index; the code that fills them and the magic index itself are not part of the
sources at hand.  The definitions below follow section 4.5 of the specification; the
relevant-occupancy mask and the compacted-occupancy index of a square are supplied from
outside and are parameters here. -/

/-- Modelled from the spec: the occupancy subsets over a list of bit positions (section
4.5, "each of the distinct relevant-occupancy subsets"; the code that fills the attack
tables is missing). -/
def subsetsOf : List Nat → List Nat
  | [] => [0]
  | b :: bs => subsetsOf bs ++ (subsetsOf bs).map (fun o => o ||| 2 ^ b)

/-- Modelled from the spec: the occupancy subsets of a relevant-occupancy mask (section
4.5; the code that fills the attack tables is missing). -/
def relevantSubsets (mask : Nat) : List Nat :=
  subsetsOf ((List.range 64).filter (fun i => mask.testBit i))

/-- Modelled from the spec: the construction of one row of an indexed attack table
(section 4.5; the code that fills the attack tables is missing): starting from 4096 zero
entries, for each subset store the ray engine's result at the index of the subset. -/
def fillRow (index : Nat → Nat) (value : Nat → Nat) (subsets : List Nat) : List Nat :=
  subsets.foldl (fun row occ => row.set (index occ) (value occ)) (List.replicate 4096 0)

/-- Modelled from the spec: the rook table `Rattacks` of lut.hpp after its construction
(section 4.5; the code that fills it is missing), for given relevant-occupancy masks and
compacted-occupancy index: the ray engine is invoked with each subset as enemy occupancy
and no friendly occupancy. -/
def Rattacks (mask : Nat → Nat) (index : Nat → Nat → Nat) : List (List Nat) :=
  (List.range 64).map (fun sq =>
    fillRow (index sq) (fun occ => rook_landings sq 0 occ) (relevantSubsets (mask sq)))

/-- Modelled from the spec: the bishop table `Battacks` of lut.hpp after its construction
(section 4.5; the code that fills it is missing), as `Rattacks` with the bishop's rays. -/
def Battacks (mask : Nat → Nat) (index : Nat → Nat → Nat) : List (List Nat) :=
  (List.range 64).map (fun sq =>
    fillRow (index sq) (fun occ => bishop_landings sq 0 occ) (relevantSubsets (mask sq)))

/-- Subscript `table[sq][idx]` of an indexed attack table. -/
def tableAt (table : List (List Nat)) (sq idx : Nat) : Nat := (table.getD sq []).getD idx 0

/-- Modelled from the spec: the contract of the external compacted-occupancy index for one
square (section 4.5 and section 9): the mask is a 64-bit value, the index of every subset
of the mask is in `[0,4096)`, and distinct subsets have distinct indices (a perfect hash). -/
def PerfectIndex (mask : Nat) (index : Nat → Nat) : Prop :=
  mask < 2 ^ 64 ∧
  (∀ o, o &&& mask = o → index o < 4096) ∧
  (∀ o1 o2, o1 &&& mask = o1 → o2 &&& mask = o2 → index o1 = index o2 → o1 = o2)

/-! ## Theorems -/

/-- A bitboard below `2^64` has no bit at or above position 64. -/
theorem testBit_false_of_ge {b : Nat} (hb : b < 2 ^ 64) {t : Nat} (ht : 64 ≤ t) :
    b.testBit t = false :=
  Nat.testBit_eq_false_of_lt (lt_of_lt_of_le hb (Nat.pow_le_pow_right (by decide) ht))

/-- Every entry of the eight hard-coded tables fits in 64 bits. -/
theorem tables_lt_two_pow : ∀ s, s < 64 →
    king_lut.at s < 2 ^ 64 ∧ knight_lut.at s < 2 ^ 64 ∧
    wpawn_cap_lut.at s < 2 ^ 64 ∧ bpawn_cap_lut.at s < 2 ^ 64 ∧
    wpawn_fw_lut.at s < 2 ^ 64 ∧ bpawn_fw_lut.at s < 2 ^ 64 ∧
    wpawn_doublefw_lut.at s < 2 ^ 64 ∧ bpawn_doublefw_lut.at s < 2 ^ 64 := by
  decide!

/-- The eight hard-coded tables have 64 entries each. -/
theorem tables_length :
    king_lut.length = 64 ∧ knight_lut.length = 64 ∧
    wpawn_cap_lut.length = 64 ∧ bpawn_cap_lut.length = 64 ∧
    wpawn_fw_lut.length = 64 ∧ bpawn_fw_lut.length = 64 ∧
    wpawn_doublefw_lut.length = 64 ∧ bpawn_doublefw_lut.length = 64 := by
  decide

/-! ### C1: pawn double-forward entries off the starting rank -/

/-- The white half of C1 holds: a non-empty white double-forward entry is on rank index 1. -/
theorem wpawn_doublefw_only_start_rank (s : Nat) (hs : s < 64)
    (h : wpawn_doublefw_lut.at s ≠ 0) : s / 8 = 1 := by
  have key : ∀ s, s < 64 → wpawn_doublefw_lut.at s ≠ 0 → s / 8 = 1 := by decide!
  exact key s hs h

/-- The black half of C1 holds everywhere except at square 56 (a8). -/
theorem bpawn_doublefw_only_start_rank_of_ne (s : Nat) (hs : s < 64) (h56 : s ≠ 56)
    (h : bpawn_doublefw_lut.at s ≠ 0) : s / 8 = 6 := by
  have key : ∀ s, s < 64 → s ≠ 56 → bpawn_doublefw_lut.at s ≠ 0 → s / 8 = 6 := by decide!
  exact key s hs h56 h

/-- C1 (fails on the code): the black double-forward table has a ninth non-empty entry,
at square 56 (a8, rank index 7), holding the bit of square 40; so a non-empty entry does
not imply the starting rank of black (rank index 6). -/
theorem bpawn_doublefw_a8_nonempty :
    bpawn_doublefw_lut.at 56 = 2 ^ 40 ∧ bpawn_doublefw_lut.at 56 ≠ 0 ∧ 56 / 8 = 7 ∧
    ¬ (∀ s, s < 64 → bpawn_doublefw_lut.at s ≠ 0 → s / 8 = 6) := by
  refine ⟨by decide!, by decide!, by decide, ?_⟩
  intro h
  exact absurd (h 56 (by decide) (by decide!)) (by decide)

/-! ### C2, C3: king and knight tables against the geometric definition -/

/-- C2: bit `t` of `king_lut[s]` is set exactly when `t` is another square at most one
file and at most one rank away from `s`. -/
theorem king_lut_geometric (s t : Nat) (hs : s < 64) (ht : t < 64) :
    (king_lut.at s).testBit t = true ↔
      (t ≠ s ∧ ((file t : Int) - (file s : Int)).natAbs ≤ 1 ∧
        ((rank t : Int) - (rank s : Int)).natAbs ≤ 1) := by
  have key : ∀ s, s < 64 → ∀ t, t < 64 →
      ((king_lut.at s).testBit t = true ↔
        (t ≠ s ∧ ((file t : Int) - (file s : Int)).natAbs ≤ 1 ∧
          ((rank t : Int) - (rank s : Int)).natAbs ≤ 1)) := by decide!
  exact key s hs t ht

/-- Witness of C2, king on e4 (28) and target d5 (35). -/
theorem king_lut_geometric_witness :
    (king_lut.at 28).testBit 35 = true ↔
      (35 ≠ 28 ∧ ((file 35 : Int) - (file 28 : Int)).natAbs ≤ 1 ∧
        ((rank 35 : Int) - (rank 28 : Int)).natAbs ≤ 1) :=
  king_lut_geometric 28 35 (by decide) (by decide)

/-- C3: bit `t` of `knight_lut[s]` is set exactly when the file and rank distances
between `t` and `s` are (1,2) or (2,1). -/
theorem knight_lut_geometric (s t : Nat) (hs : s < 64) (ht : t < 64) :
    (knight_lut.at s).testBit t = true ↔
      ((((file t : Int) - (file s : Int)).natAbs = 1 ∧
          ((rank t : Int) - (rank s : Int)).natAbs = 2) ∨
       (((file t : Int) - (file s : Int)).natAbs = 2 ∧
          ((rank t : Int) - (rank s : Int)).natAbs = 1)) := by
  have key : ∀ s, s < 64 → ∀ t, t < 64 →
      ((knight_lut.at s).testBit t = true ↔
        ((((file t : Int) - (file s : Int)).natAbs = 1 ∧
            ((rank t : Int) - (rank s : Int)).natAbs = 2) ∨
         (((file t : Int) - (file s : Int)).natAbs = 2 ∧
            ((rank t : Int) - (rank s : Int)).natAbs = 1))) := by decide!
  exact key s hs t ht

/-- Witness of C3, knight on b1 (1) and target c3 (18). -/
theorem knight_lut_geometric_witness :
    (knight_lut.at 1).testBit 18 = true ↔
      ((((file 18 : Int) - (file 1 : Int)).natAbs = 1 ∧
          ((rank 18 : Int) - (rank 1 : Int)).natAbs = 2) ∨
       (((file 18 : Int) - (file 1 : Int)).natAbs = 2 ∧
          ((rank 18 : Int) - (rank 1 : Int)).natAbs = 1)) :=
  knight_lut_geometric 1 18 (by decide) (by decide)

/-! ### C4, C5, C6: pawn tables against the geometric definition -/

/-- C4: bit `t` of `wpawn_cap_lut[s]` is set exactly when `t` is one rank up and one file
aside of `s`; bit `t` of `bpawn_cap_lut[s]` exactly when `t` is one rank down and one file
aside.  Hence an a-file or h-file pawn not on its last rank has exactly one capture square,
and the last rank of each colour (rank index 7 for white, 0 for black) maps to 0. -/
theorem pawn_cap_lut_geometric (s t : Nat) (hs : s < 64) (ht : t < 64) :
    ((wpawn_cap_lut.at s).testBit t = true ↔
      (rank t = rank s + 1 ∧ ((file t : Int) - (file s : Int)).natAbs = 1)) ∧
    ((bpawn_cap_lut.at s).testBit t = true ↔
      (rank t + 1 = rank s ∧ ((file t : Int) - (file s : Int)).natAbs = 1)) ∧
    ((file s = 0 ∨ file s = 7) → rank s < 7 → popcount (wpawn_cap_lut.at s) = 1) ∧
    ((file s = 0 ∨ file s = 7) → 0 < rank s → popcount (bpawn_cap_lut.at s) = 1) ∧
    (rank s = 7 → wpawn_cap_lut.at s = 0) ∧
    (rank s = 0 → bpawn_cap_lut.at s = 0) := by
  have key : ∀ s, s < 64 → ∀ t, t < 64 →
      (((wpawn_cap_lut.at s).testBit t = true ↔
        (rank t = rank s + 1 ∧ ((file t : Int) - (file s : Int)).natAbs = 1)) ∧
      ((bpawn_cap_lut.at s).testBit t = true ↔
        (rank t + 1 = rank s ∧ ((file t : Int) - (file s : Int)).natAbs = 1))) := by decide!
  have edge : ∀ s, s < 64 →
      (((file s = 0 ∨ file s = 7) → (rank s < 7 → popcount (wpawn_cap_lut.at s) = 1)) ∧
      ((file s = 0 ∨ file s = 7) → (0 < rank s → popcount (bpawn_cap_lut.at s) = 1))) := by
    decide!
  have last : ∀ s, s < 64 →
      ((rank s = 7 → wpawn_cap_lut.at s = 0) ∧ (rank s = 0 → bpawn_cap_lut.at s = 0)) := by
    decide!
  exact ⟨(key s hs t ht).1, (key s hs t ht).2, (edge s hs).1, (edge s hs).2,
    (last s hs).1, (last s hs).2⟩

/-- Witness of C4, pawn on a2 (8) and target b3 (17). -/
theorem pawn_cap_lut_geometric_witness :
    ((wpawn_cap_lut.at 8).testBit 17 = true ↔
      (rank 17 = rank 8 + 1 ∧ ((file 17 : Int) - (file 8 : Int)).natAbs = 1)) ∧
    ((bpawn_cap_lut.at 8).testBit 17 = true ↔
      (rank 17 + 1 = rank 8 ∧ ((file 17 : Int) - (file 8 : Int)).natAbs = 1)) ∧
    ((file 8 = 0 ∨ file 8 = 7) → rank 8 < 7 → popcount (wpawn_cap_lut.at 8) = 1) ∧
    ((file 8 = 0 ∨ file 8 = 7) → 0 < rank 8 → popcount (bpawn_cap_lut.at 8) = 1) ∧
    (rank 8 = 7 → wpawn_cap_lut.at 8 = 0) ∧
    (rank 8 = 0 → bpawn_cap_lut.at 8 = 0) :=
  pawn_cap_lut_geometric 8 17 (by decide) (by decide)

/-- C5: `wpawn_fw_lut[s]` is the single bit `s+8` when `s < 56` and 0 otherwise;
`bpawn_fw_lut[s]` is the single bit `s-8` when `s ≥ 8` and 0 otherwise. -/
theorem pawn_fw_lut_geometric (s : Nat) (hs : s < 64) :
    wpawn_fw_lut.at s = (if s < 56 then 2 ^ (s + 8) else 0) ∧
    bpawn_fw_lut.at s = (if 8 ≤ s then 2 ^ (s - 8) else 0) := by
  have key : ∀ s, s < 64 →
      (wpawn_fw_lut.at s = (if s < 56 then 2 ^ (s + 8) else 0) ∧
       bpawn_fw_lut.at s = (if 8 ≤ s then 2 ^ (s - 8) else 0)) := by decide!
  exact key s hs

/-- Witness of C5 at e2 (12). -/
theorem pawn_fw_lut_geometric_witness :
    wpawn_fw_lut.at 12 = (if 12 < 56 then 2 ^ (12 + 8) else 0) ∧
    bpawn_fw_lut.at 12 = (if 8 ≤ 12 then 2 ^ (12 - 8) else 0) :=
  pawn_fw_lut_geometric 12 (by decide)

/-- C6: on the starting rank the double-forward entry is the single bit two ranks ahead:
`wpawn_doublefw_lut[s] = 2^(s+16)` for `s` in 8..15 and `bpawn_doublefw_lut[s] = 2^(s-16)`
for `s` in 48..55. -/
theorem pawn_doublefw_lut_on_start_rank (s : Nat) :
    (8 ≤ s → s ≤ 15 → wpawn_doublefw_lut.at s = 2 ^ (s + 16)) ∧
    (48 ≤ s → s ≤ 55 → bpawn_doublefw_lut.at s = 2 ^ (s - 16)) := by
  have key : ∀ s, s < 64 →
      ((8 ≤ s → s ≤ 15 → wpawn_doublefw_lut.at s = 2 ^ (s + 16)) ∧
       (48 ≤ s → s ≤ 55 → bpawn_doublefw_lut.at s = 2 ^ (s - 16))) := by decide!
  by_cases hs : s < 64
  · exact key s hs
  · constructor <;> intro h1 h2 <;> exfalso <;> omega

/-- Witness of C6: e2 (12) for white and e7 (52) for black, with the range hypotheses
discharged. -/
theorem pawn_doublefw_lut_on_start_rank_witness :
    wpawn_doublefw_lut.at 12 = 2 ^ (12 + 16) ∧ bpawn_doublefw_lut.at 52 = 2 ^ (52 - 16) :=
  ⟨(pawn_doublefw_lut_on_start_rank 12).1 (by decide) (by decide),
   (pawn_doublefw_lut_on_start_rank 52).2 (by decide) (by decide)⟩

/-! ### C7, C8: population counts of the king and knight tables -/

/-- C7: `king_lut[s]` has between 3 and 8 squares, exactly 3 at the corners and exactly 8
at interior squares, and every member is a square at most one file and one rank from `s`. -/
theorem king_lut_popcount (s : Nat) (hs : s < 64) :
    (3 ≤ popcount (king_lut.at s) ∧ popcount (king_lut.at s) ≤ 8) ∧
    ((s = 0 ∨ s = 7 ∨ s = 56 ∨ s = 63) → popcount (king_lut.at s) = 3) ∧
    ((1 ≤ file s ∧ file s ≤ 6 ∧ 1 ≤ rank s ∧ rank s ≤ 6) → popcount (king_lut.at s) = 8) ∧
    (∀ t, (king_lut.at s).testBit t = true →
      t < 64 ∧ ((file t : Int) - (file s : Int)).natAbs ≤ 1 ∧
        ((rank t : Int) - (rank s : Int)).natAbs ≤ 1) := by
  have key : ∀ s, s < 64 →
      ((3 ≤ popcount (king_lut.at s) ∧ popcount (king_lut.at s) ≤ 8) ∧
      ((s = 0 ∨ s = 7 ∨ s = 56 ∨ s = 63) → popcount (king_lut.at s) = 3) ∧
      ((1 ≤ file s ∧ file s ≤ 6 ∧ 1 ≤ rank s ∧ rank s ≤ 6) → popcount (king_lut.at s) = 8) ∧
      (∀ t, t < 64 → (king_lut.at s).testBit t = true →
        ((file t : Int) - (file s : Int)).natAbs ≤ 1 ∧
          ((rank t : Int) - (rank s : Int)).natAbs ≤ 1)) := by decide!
  obtain ⟨h1, h2, h3, h4⟩ := key s hs
  refine ⟨h1, h2, h3, ?_⟩
  intro t hbit
  have ht : t < 64 := by
    by_contra hge
    have := testBit_false_of_ge (tables_lt_two_pow s hs).1 (Nat.le_of_not_lt hge)
    rw [this] at hbit
    exact Bool.noConfusion hbit
  exact ⟨ht, h4 t ht hbit⟩

/-- Witness of C7 at the corner h8 (63). -/
theorem king_lut_popcount_witness :
    (3 ≤ popcount (king_lut.at 63) ∧ popcount (king_lut.at 63) ≤ 8) ∧
    (((63 : Nat) = 0 ∨ (63 : Nat) = 7 ∨ (63 : Nat) = 56 ∨ (63 : Nat) = 63) →
      popcount (king_lut.at 63) = 3) ∧
    ((1 ≤ file 63 ∧ file 63 ≤ 6 ∧ 1 ≤ rank 63 ∧ rank 63 ≤ 6) → popcount (king_lut.at 63) = 8) ∧
    (∀ t, (king_lut.at 63).testBit t = true →
      t < 64 ∧ ((file t : Int) - (file 63 : Int)).natAbs ≤ 1 ∧
        ((rank t : Int) - (rank 63 : Int)).natAbs ≤ 1) :=
  king_lut_popcount 63 (by decide)

/-- C8: `knight_lut[s]` has between 2 and 8 squares, exactly 2 at the corners and exactly 8
at every square whose file and rank are both in 2..5. -/
theorem knight_lut_popcount (s : Nat) (hs : s < 64) :
    (2 ≤ popcount (knight_lut.at s) ∧ popcount (knight_lut.at s) ≤ 8) ∧
    ((s = 0 ∨ s = 7 ∨ s = 56 ∨ s = 63) → popcount (knight_lut.at s) = 2) ∧
    ((2 ≤ file s ∧ file s ≤ 5 ∧ 2 ≤ rank s ∧ rank s ≤ 5) → popcount (knight_lut.at s) = 8) := by
  have key : ∀ s, s < 64 →
      ((2 ≤ popcount (knight_lut.at s) ∧ popcount (knight_lut.at s) ≤ 8) ∧
      ((s = 0 ∨ s = 7 ∨ s = 56 ∨ s = 63) → popcount (knight_lut.at s) = 2) ∧
      ((2 ≤ file s ∧ file s ≤ 5 ∧ 2 ≤ rank s ∧ rank s ≤ 5) →
        popcount (knight_lut.at s) = 8)) := by decide!
  exact key s hs

/-- Witness of C8 at the central square d4 (27). -/
theorem knight_lut_popcount_witness :
    (2 ≤ popcount (knight_lut.at 27) ∧ popcount (knight_lut.at 27) ≤ 8) ∧
    (((27 : Nat) = 0 ∨ (27 : Nat) = 7 ∨ (27 : Nat) = 56 ∨ (27 : Nat) = 63) →
      popcount (knight_lut.at 27) = 2) ∧
    ((2 ≤ file 27 ∧ file 27 ≤ 5 ∧ 2 ≤ rank 27 ∧ rank 27 ≤ 5) →
      popcount (knight_lut.at 27) = 8) :=
  knight_lut_popcount 27 (by decide)

/-! ### C9: black pawn tables as rank mirrors of the white ones -/

/-- Folding the mirror step over a list of bit positions: bit `j` of the result is set when
it was set in the accumulator or some listed position `i` with bit `i` of `b` set has
`i xor 56 = j`. -/
theorem flip_fold_testBit (b : Nat) (l : List Nat) (acc j : Nat) :
    (l.foldl (fun acc i => if b.testBit i then acc ||| 2 ^ (i ^^^ 56) else acc) acc).testBit j
      = (acc.testBit j || l.any (fun i => b.testBit i && decide (i ^^^ 56 = j))) := by
  induction l generalizing acc with
  | nil => simp
  | cons a l ih =>
    rw [List.foldl_cons, ih]
    by_cases ha : b.testBit a = true
    · simp [ha, Nat.testBit_or, Nat.testBit_two_pow, Bool.or_assoc]
    · simp [ha]

/-- The mirror `flip` does what the specification says: bit `i xor 56` of `flip b` is bit
`i` of `b`, for every square `i`. -/
theorem flip_testBit (b i : Nat) (hi : i < 64) :
    (flip b).testBit (i ^^^ 56) = b.testBit i := by
  unfold flip
  rw [flip_fold_testBit, Nat.zero_testBit, Bool.false_or, Bool.eq_iff_iff, List.any_eq_true]
  constructor
  · rintro ⟨k, _, hk⟩
    rw [Bool.and_eq_true, decide_eq_true_eq] at hk
    have : k = i := Nat.xor_left_injective hk.2
    rw [← this]; exact hk.1
  · intro h
    exact ⟨i, List.mem_range.mpr hi, by simp [h]⟩

/-- The single-forward and capture parts of C9 hold on every square. -/
theorem pawn_fw_cap_mirror (s : Nat) (hs : s < 64) :
    bpawn_fw_lut.at s = flip (wpawn_fw_lut.at (s ^^^ 56)) ∧
    bpawn_cap_lut.at s = flip (wpawn_cap_lut.at (s ^^^ 56)) := by
  have key : ∀ s, s < 64 →
      (bpawn_fw_lut.at s = flip (wpawn_fw_lut.at (s ^^^ 56)) ∧
       bpawn_cap_lut.at s = flip (wpawn_cap_lut.at (s ^^^ 56))) := by decide!
  exact key s hs

/-- The double-forward part of C9 holds on every square other than 56 (a8). -/
theorem pawn_doublefw_mirror_of_ne (s : Nat) (hs : s < 64) (h56 : s ≠ 56) :
    bpawn_doublefw_lut.at s = flip (wpawn_doublefw_lut.at (s ^^^ 56)) := by
  have key : ∀ s, s < 64 → s ≠ 56 →
      bpawn_doublefw_lut.at s = flip (wpawn_doublefw_lut.at (s ^^^ 56)) := by decide!
  exact key s hs h56

/-- The last part of C9 holds: each per-colour array holds the white table at index 0 and
the black table of the same kind at index 1. -/
theorem pawn_tables_by_colour :
    PawnFW = [wpawn_fw_lut, bpawn_fw_lut] ∧
    Pawn2FW = [wpawn_doublefw_lut, bpawn_doublefw_lut] ∧
    PawnAttacks = [wpawn_cap_lut, bpawn_cap_lut] ∧
    PawnFW.length = COLOR_NB ∧ Pawn2FW.length = COLOR_NB ∧ PawnAttacks.length = COLOR_NB :=
  ⟨rfl, rfl, rfl, rfl, rfl, rfl⟩

/-- C9 (fails on the code): at square 56 (a8) the black double-forward entry is the bit of
square 40, while the mirror of the white entry at `56 xor 56 = 0` (a1) is empty; so the
black double-forward table is not the rank mirror of the white one. -/
theorem bpawn_doublefw_not_mirror_at_a8 :
    bpawn_doublefw_lut.at 56 = 2 ^ 40 ∧
    flip (wpawn_doublefw_lut.at (56 ^^^ 56)) = 0 ∧
    bpawn_doublefw_lut.at 56 ≠ flip (wpawn_doublefw_lut.at (56 ^^^ 56)) := by
  decide!

/-! ### C10: the ray engine -/

/-- The scenarios of section 8 of the specification, evaluated on the model: a rook on d4
(27) on an empty board reaches 14 squares; with an enemy on d6 (43) the north ray is d5, d6;
with a friend on d6 it is d5 only; a bishop on a1 on an empty board reaches 7 squares. -/
theorem ray_engine_scenarios :
    popcount (rook_landings 27 0 0) = 14 ∧
    (rook_landings 27 0 (2 ^ 43) &&& (2 ^ 35 ||| 2 ^ 43 ||| 2 ^ 51 ||| 2 ^ 59))
      = 2 ^ 35 ||| 2 ^ 43 ∧
    (rook_landings 27 (2 ^ 43) 0 &&& (2 ^ 35 ||| 2 ^ 43 ||| 2 ^ 51 ||| 2 ^ 59)) = 2 ^ 35 ∧
    popcount (bishop_landings 0 0 0) = 7 := by
  decide!

/-- Bit `t` of the walk of one direction with `n` steps allowed is set exactly when `t` is
the `k`-th stepped-to square for some `1 ≤ k ≤ n`, all of the first `k` stepped-to squares
are on the board, the first `k - 1` are empty and the `k`-th is not friendly. -/
theorem ray_testBit (df dr : Int) (fr en : Nat) (n : Nat) (f r : Int) (t : Nat) :
    (ray df dr fr en n f r).testBit t = true ↔
      ∃ k : Nat, 1 ≤ k ∧ k ≤ n ∧
        (∀ j : Nat, 1 ≤ j → j ≤ k → onBoard (f + j * df) (r + j * dr) = true) ∧
        (∀ j : Nat, 1 ≤ j → j < k →
          fr.testBit (squareOf (f + j * df) (r + j * dr)) = false ∧
          en.testBit (squareOf (f + j * df) (r + j * dr)) = false) ∧
        fr.testBit (squareOf (f + k * df) (r + k * dr)) = false ∧
        t = squareOf (f + k * df) (r + k * dr) := by
  induction n generalizing f r with
  | zero =>
    constructor
    · intro h; simp [ray] at h
    · rintro ⟨k, h1, h2, _⟩; omega
  | succ n ih =>
    have one_f : f + ((1 : Nat) : Int) * df = f + df := by simp
    have one_r : r + ((1 : Nat) : Int) * dr = r + dr := by simp
    have shift_f : ∀ j : Nat, f + ((j + 1 : Nat) : Int) * df = f + df + (j : Int) * df := by
      intro j; push_cast; ring
    have shift_r : ∀ j : Nat, r + ((j + 1 : Nat) : Int) * dr = r + dr + (j : Int) * dr := by
      intro j; push_cast; ring
    rw [ray]
    by_cases hb : onBoard (f + df) (r + dr) = true
    · rw [if_pos hb]
      by_cases hf : fr.testBit (squareOf (f + df) (r + dr)) = true
      · rw [if_pos hf]
        constructor
        · intro h; simp at h
        · rintro ⟨k, h1, _, _, hclear, hk, _⟩
          rcases Nat.eq_or_lt_of_le h1 with h | h
          · subst h; rw [one_f, one_r, hf] at hk; cases hk
          · have h' := (hclear 1 (le_refl 1) h).1
            rw [one_f, one_r, hf] at h'; cases h'
      · rw [if_neg hf]
        have hf' : fr.testBit (squareOf (f + df) (r + dr)) = false := by simpa using hf
        by_cases he : en.testBit (squareOf (f + df) (r + dr)) = true
        · rw [if_pos he, Nat.testBit_two_pow, decide_eq_true_eq]
          constructor
          · intro h
            refine ⟨1, le_refl 1, by omega, ?_, ?_, ?_, ?_⟩
            · intro j hj1 hj2
              have : j = 1 := by omega
              subst this; rw [one_f, one_r]; exact hb
            · intro j hj1 hj2; omega
            · rw [one_f, one_r]; exact hf'
            · rw [one_f, one_r]; exact h.symm
          · rintro ⟨k, h1, _, _, hclear, _, ht⟩
            rcases Nat.eq_or_lt_of_le h1 with h | h
            · subst h; rw [one_f, one_r] at ht; exact ht.symm
            · have h' := (hclear 1 (le_refl 1) h).2
              rw [one_f, one_r, he] at h'; cases h'
        · rw [if_neg he]
          have he' : en.testBit (squareOf (f + df) (r + dr)) = false := by simpa using he
          rw [Nat.testBit_or, Bool.or_eq_true, Nat.testBit_two_pow, decide_eq_true_eq, ih]
          constructor
          · rintro (h | ⟨k, h1, h2, hon, hclear, hk, ht⟩)
            · refine ⟨1, le_refl 1, by omega, ?_, ?_, ?_, ?_⟩
              · intro j hj1 hj2
                have : j = 1 := by omega
                subst this; rw [one_f, one_r]; exact hb
              · intro j hj1 hj2; omega
              · rw [one_f, one_r]; exact hf'
              · rw [one_f, one_r]; exact h.symm
            · refine ⟨k + 1, by omega, by omega, ?_, ?_, ?_, ?_⟩
              · intro j hj1 hj2
                obtain ⟨i, rfl⟩ : ∃ i, j = i + 1 := ⟨j - 1, by omega⟩
                rw [shift_f, shift_r]
                rcases Nat.eq_zero_or_pos i with h0 | h0
                · subst h0; simpa using hb
                · exact hon i h0 (by omega)
              · intro j hj1 hj2
                obtain ⟨i, rfl⟩ : ∃ i, j = i + 1 := ⟨j - 1, by omega⟩
                rw [shift_f, shift_r]
                rcases Nat.eq_zero_or_pos i with h0 | h0
                · subst h0; simpa using And.intro hf' he'
                · exact hclear i h0 (by omega)
              · rw [shift_f, shift_r]; exact hk
              · rw [shift_f, shift_r]; exact ht
          · rintro ⟨k, h1, h2, hon, hclear, hk, ht⟩
            rcases Nat.eq_or_lt_of_le h1 with h | h
            · subst h; rw [one_f, one_r] at ht; exact Or.inl ht.symm
            · obtain ⟨i, rfl⟩ : ∃ i, k = i + 1 := ⟨k - 1, by omega⟩
              right
              refine ⟨i, by omega, by omega, ?_, ?_, ?_, ?_⟩
              · intro j hj1 hj2
                have := hon (j + 1) (by omega) (by omega)
                rwa [shift_f, shift_r] at this
              · intro j hj1 hj2
                have := hclear (j + 1) (by omega) (by omega)
                rwa [shift_f, shift_r] at this
              · rwa [shift_f, shift_r] at hk
              · rwa [shift_f, shift_r] at ht
    · rw [if_neg hb]
      constructor
      · intro h; simp at h
      · rintro ⟨k, h1, _, hon, _⟩
        have := hon 1 (le_refl 1) h1
        rw [one_f, one_r] at this
        exact absurd this hb

/-- Bit `t` of a union folded over a list is set when it was set in the start value or
in the contribution of some member. -/
theorem foldl_or_testBit {α : Type} (g : α → Nat) (l : List α) (acc t : Nat) :
    (l.foldl (fun acc d => acc ||| g d) acc).testBit t = true ↔
      (acc.testBit t = true ∨ ∃ d ∈ l, (g d).testBit t = true) := by
  induction l generalizing acc with
  | nil => simp
  | cons a l ih =>
    rw [List.foldl_cons, ih, Nat.testBit_or, Bool.or_eq_true]
    constructor
    · rintro ((h | h) | ⟨d, hd, h⟩)
      · exact Or.inl h
      · exact Or.inr ⟨a, List.mem_cons_self a l, h⟩
      · exact Or.inr ⟨d, List.mem_cons_of_mem a hd, h⟩
    · rintro (h | ⟨d, hd, h⟩)
      · exact Or.inl (Or.inl h)
      · rcases List.mem_cons.mp hd with rfl | hd'
        · exact Or.inl (Or.inr h)
        · exact Or.inr ⟨d, hd', h⟩

/-- The straight and the diagonal directions are unit steps. -/
theorem dirs_unit : (∀ d ∈ straightDirs, unitDir d = true) ∧ (∀ d ∈ diagoDirs, unitDir d = true) := by
  decide

/-- Two on-board file/rank pairs with the same square index are equal. -/
theorem squareOf_inj {f r f' r' : Int} (h : onBoard f r = true) (h' : onBoard f' r' = true)
    (e : squareOf f r = squareOf f' r') : f = f' ∧ r = r' := by
  simp only [onBoard, decide_eq_true_eq] at h h'
  unfold squareOf at e
  omega

/-- An on-board file/rank pair has a square index below 64. -/
theorem squareOf_lt {f r : Int} (h : onBoard f r = true) : squareOf f r < 64 := by
  simp only [onBoard, decide_eq_true_eq] at h
  unfold squareOf
  omega

/-- A walk of unit steps that is still on the board after `k` steps has `k ≤ 7`. -/
theorem steps_le_seven (sq : Nat) (hsq : sq < 64) (d : Int × Int) (hd : unitDir d = true)
    (k : Nat) (h : onBoard (stepFrom sq d k).1 (stepFrom sq d k).2 = true) : k ≤ 7 := by
  obtain ⟨d1, d2⟩ := d
  simp only [unitDir, decide_eq_true_eq] at hd
  simp only [onBoard, stepFrom, file, rank, decide_eq_true_eq] at h
  obtain ⟨h1, h2, h3⟩ := hd
  rcases h1 with rfl | rfl | rfl <;> rcases h2 with rfl | rfl | rfl <;> omega

/-- The union of the walks over a list of unit directions is the ray-walk reading of the
landing set: eight steps per direction are enough to reach every square of a ray. -/
theorem lines_testBit (dirs : List (Int × Int)) (hdirs : ∀ d ∈ dirs, unitDir d = true)
    (sq enemy friendly : Nat) (hsq : sq < 64) (t : Nat) :
    (lines dirs sq enemy friendly).testBit t = true ↔ RayReach dirs sq friendly enemy t := by
  unfold lines RayReach
  rw [foldl_or_testBit]
  constructor
  · rintro (h | ⟨d, hd, h⟩)
    · simp at h
    · rw [ray_testBit] at h
      obtain ⟨k, h1, _, hon, hclear, hk, ht⟩ := h
      exact ⟨d, hd, k, h1, hon, hclear, hk, ht⟩
  · rintro ⟨d, hd, k, h1, hon, hclear, hk, ht⟩
    right
    refine ⟨d, hd, ?_⟩
    rw [ray_testBit]
    have hk7 : k ≤ 7 := steps_le_seven sq hsq d (hdirs d hd) k (hon k h1 (le_refl k))
    exact ⟨k, h1, by omega, hon, hclear, hk, ht⟩

/-- A landing set contains no friendly-occupied square. -/
theorem lines_and_friendly (dirs : List (Int × Int)) (hdirs : ∀ d ∈ dirs, unitDir d = true)
    (sq enemy friendly : Nat) (hsq : sq < 64) :
    lines dirs sq enemy friendly &&& friendly = 0 := by
  apply Nat.eq_of_testBit_eq
  intro t
  rw [Nat.testBit_and, Nat.zero_testBit]
  by_cases h : (lines dirs sq enemy friendly).testBit t = true
  · obtain ⟨d, _, k, _, _, _, hk, ht⟩ := (lines_testBit dirs hdirs sq enemy friendly hsq t).mp h
    rw [ht, hk, Bool.and_false]
  · rw [Bool.not_eq_true] at h
    rw [h, Bool.false_and]

/-- Two walks of unit steps from the same square that meet on the board are the same walk
at the same step. -/
theorem walk_unique (sq : Nat) (d d' : Int × Int) (hd : unitDir d = true)
    (hd' : unitDir d' = true) (k k' : Nat) (hk : 1 ≤ k) (hk' : 1 ≤ k')
    (hon : onBoard (stepFrom sq d k).1 (stepFrom sq d k).2 = true)
    (hon' : onBoard (stepFrom sq d' k').1 (stepFrom sq d' k').2 = true)
    (e : squareAt sq d k = squareAt sq d' k') : d = d' ∧ k = k' := by
  obtain ⟨e1, e2⟩ := squareOf_inj hon hon' e
  obtain ⟨a, b⟩ := d
  obtain ⟨a', b'⟩ := d'
  simp only [unitDir, decide_eq_true_eq] at hd hd'
  simp only [stepFrom] at e1 e2
  obtain ⟨h1, h2, h3⟩ := hd
  obtain ⟨h1', h2', h3'⟩ := hd'
  rcases h1 with rfl | rfl | rfl <;> rcases h2 with rfl | rfl | rfl <;>
    rcases h1' with rfl | rfl | rfl <;> rcases h2' with rfl | rfl | rfl <;>
    first
      | (exfalso; omega)
      | exact ⟨rfl, by omega⟩

/-- A landing set contains no square beyond the first occupied square of a ray. -/
theorem lines_not_beyond (dirs : List (Int × Int)) (hdirs : ∀ d ∈ dirs, unitDir d = true)
    (sq enemy friendly : Nat) (hsq : sq < 64) (d : Int × Int) (hd : d ∈ dirs) (j k : Nat)
    (hj : 1 ≤ j) (hjk : j < k)
    (hon : onBoard (stepFrom sq d k).1 (stepFrom sq d k).2 = true)
    (hocc : friendly.testBit (squareAt sq d j) = true ∨ enemy.testBit (squareAt sq d j) = true) :
    (lines dirs sq enemy friendly).testBit (squareAt sq d k) = false := by
  rw [← Bool.not_eq_true]
  intro h
  obtain ⟨d', hd', k', h1, hon', hclear, _, ht⟩ :=
    (lines_testBit dirs hdirs sq enemy friendly hsq _).mp h
  obtain ⟨rfl, rfl⟩ := walk_unique sq d d' (hdirs d hd) (hdirs d' hd') k k' (by omega) h1 hon
    (hon' k' h1 (le_refl k')) ht
  obtain ⟨c1, c2⟩ := hclear j hj hjk
  rcases hocc with h' | h'
  · rw [c1] at h'; cases h'
  · rw [c2] at h'; cases h'

/-- C10: for a square `sq` and disjoint friendly and enemy occupancy, `rook_landings` and
`bishop_landings` are the union over the four straight, respectively diagonal, directions
of the ray walked outward from `sq` one square at a time: a square is a landing exactly
when it is reached on the board along one direction over empty squares only and is not
friendly (an enemy square is included and ends the ray).  Consequently the result holds no
friendly-occupied square and no square beyond the first occupied square of a ray. -/
theorem sliding_landings_ray_walk (sq friendly enemy : Nat) (hsq : sq < 64)
    (hdisj : friendly &&& enemy = 0) :
    (∀ t, (rook_landings sq friendly enemy).testBit t = true ↔
      RayReach straightDirs sq friendly enemy t) ∧
    (∀ t, (bishop_landings sq friendly enemy).testBit t = true ↔
      RayReach diagoDirs sq friendly enemy t) ∧
    rook_landings sq friendly enemy &&& friendly = 0 ∧
    bishop_landings sq friendly enemy &&& friendly = 0 ∧
    (∀ d ∈ straightDirs, ∀ j k : Nat, 1 ≤ j → j < k →
      onBoard (stepFrom sq d k).1 (stepFrom sq d k).2 = true →
      (friendly.testBit (squareAt sq d j) = true ∨ enemy.testBit (squareAt sq d j) = true) →
      (rook_landings sq friendly enemy).testBit (squareAt sq d k) = false) ∧
    (∀ d ∈ diagoDirs, ∀ j k : Nat, 1 ≤ j → j < k →
      onBoard (stepFrom sq d k).1 (stepFrom sq d k).2 = true →
      (friendly.testBit (squareAt sq d j) = true ∨ enemy.testBit (squareAt sq d j) = true) →
      (bishop_landings sq friendly enemy).testBit (squareAt sq d k) = false) := by
  have _ := hdisj
  refine ⟨?_, ?_, ?_, ?_, ?_, ?_⟩
  · exact fun t => lines_testBit straightDirs dirs_unit.1 sq enemy friendly hsq t
  · exact fun t => lines_testBit diagoDirs dirs_unit.2 sq enemy friendly hsq t
  · exact lines_and_friendly straightDirs dirs_unit.1 sq enemy friendly hsq
  · exact lines_and_friendly diagoDirs dirs_unit.2 sq enemy friendly hsq
  · exact fun d hd j k hj hjk hon hocc =>
      lines_not_beyond straightDirs dirs_unit.1 sq enemy friendly hsq d hd j k hj hjk hon hocc
  · exact fun d hd j k hj hjk hon hocc =>
      lines_not_beyond diagoDirs dirs_unit.2 sq enemy friendly hsq d hd j k hj hjk hon hocc

/-- Witness of C10: a piece on d4 (27) with a friend on d6 (43) and an enemy on f4 (29). -/
theorem sliding_landings_ray_walk_witness :
    (27 < 64 ∧ (2 ^ 43 &&& 2 ^ 29 = 0)) ∧
    ((∀ t, (rook_landings 27 (2 ^ 43) (2 ^ 29)).testBit t = true ↔
      RayReach straightDirs 27 (2 ^ 43) (2 ^ 29) t) ∧
    (∀ t, (bishop_landings 27 (2 ^ 43) (2 ^ 29)).testBit t = true ↔
      RayReach diagoDirs 27 (2 ^ 43) (2 ^ 29) t) ∧
    rook_landings 27 (2 ^ 43) (2 ^ 29) &&& 2 ^ 43 = 0 ∧
    bishop_landings 27 (2 ^ 43) (2 ^ 29) &&& 2 ^ 43 = 0 ∧
    (∀ d ∈ straightDirs, ∀ j k : Nat, 1 ≤ j → j < k →
      onBoard (stepFrom 27 d k).1 (stepFrom 27 d k).2 = true →
      ((2 ^ 43).testBit (squareAt 27 d j) = true ∨ (2 ^ 29).testBit (squareAt 27 d j) = true) →
      (rook_landings 27 (2 ^ 43) (2 ^ 29)).testBit (squareAt 27 d k) = false) ∧
    (∀ d ∈ diagoDirs, ∀ j k : Nat, 1 ≤ j → j < k →
      onBoard (stepFrom 27 d k).1 (stepFrom 27 d k).2 = true →
      ((2 ^ 43).testBit (squareAt 27 d j) = true ∨ (2 ^ 29).testBit (squareAt 27 d j) = true) →
      (bishop_landings 27 (2 ^ 43) (2 ^ 29)).testBit (squareAt 27 d k) = false)) :=
  ⟨⟨by decide, by decide!⟩, sliding_landings_ray_walk 27 (2 ^ 43) (2 ^ 29) (by decide) (by decide!)⟩

/-! ### C15, C16, C17: relations between the leaping tables -/

/-- C15: white and black pawn attacks are dual: bit `t` of `wpawn_cap_lut[s]` is set exactly
when bit `s` of `bpawn_cap_lut[t]` is set.  So `PawnAttacks` of the opposite colour at a
target square holds exactly the squares from which a pawn attacks it, for either colour. -/
theorem pawn_attacks_dual (s t : Nat) (hs : s < 64) (ht : t < 64) :
    ((wpawn_cap_lut.at s).testBit t = true ↔ (bpawn_cap_lut.at t).testBit s = true) ∧
    (((PawnAttacks.getD 1 []).at t).testBit s = true ↔
      ((PawnAttacks.getD 0 []).at s).testBit t = true) ∧
    (((PawnAttacks.getD 0 []).at t).testBit s = true ↔
      ((PawnAttacks.getD 1 []).at s).testBit t = true) := by
  have key : ∀ s, s < 64 → ∀ t, t < 64 →
      (((wpawn_cap_lut.at s).testBit t = true ↔ (bpawn_cap_lut.at t).testBit s = true) ∧
      (((PawnAttacks.getD 1 []).at t).testBit s = true ↔
        ((PawnAttacks.getD 0 []).at s).testBit t = true) ∧
      (((PawnAttacks.getD 0 []).at t).testBit s = true ↔
        ((PawnAttacks.getD 1 []).at s).testBit t = true)) := by decide!
  exact key s hs t ht

/-- Witness of C15: a white pawn on e4 (28) attacks d5 (35). -/
theorem pawn_attacks_dual_witness :
    ((wpawn_cap_lut.at 28).testBit 35 = true ↔ (bpawn_cap_lut.at 35).testBit 28 = true) ∧
    (((PawnAttacks.getD 1 []).at 35).testBit 28 = true ↔
      ((PawnAttacks.getD 0 []).at 28).testBit 35 = true) ∧
    (((PawnAttacks.getD 0 []).at 35).testBit 28 = true ↔
      ((PawnAttacks.getD 1 []).at 28).testBit 35 = true) :=
  pawn_attacks_dual 28 35 (by decide) (by decide)

/-- C16: the king and knight tables are symmetric attack relations, and no entry contains
its own square. -/
theorem king_knight_symmetric (s t : Nat) (hs : s < 64) (ht : t < 64) :
    ((king_lut.at s).testBit t = true ↔ (king_lut.at t).testBit s = true) ∧
    ((knight_lut.at s).testBit t = true ↔ (knight_lut.at t).testBit s = true) ∧
    (king_lut.at s).testBit s = false ∧ (knight_lut.at s).testBit s = false := by
  have key : ∀ s, s < 64 → ∀ t, t < 64 →
      (((king_lut.at s).testBit t = true ↔ (king_lut.at t).testBit s = true) ∧
      ((knight_lut.at s).testBit t = true ↔ (knight_lut.at t).testBit s = true) ∧
      (king_lut.at s).testBit s = false ∧ (knight_lut.at s).testBit s = false) := by decide!
  exact key s hs t ht

/-- Witness of C16: g1 (6) and f3 (21), a knight move apart. -/
theorem king_knight_symmetric_witness :
    ((king_lut.at 6).testBit 21 = true ↔ (king_lut.at 21).testBit 6 = true) ∧
    ((knight_lut.at 6).testBit 21 = true ↔ (knight_lut.at 21).testBit 6 = true) ∧
    (king_lut.at 6).testBit 6 = false ∧ (knight_lut.at 6).testBit 6 = false :=
  king_knight_symmetric 6 21 (by decide) (by decide)

/-- C17: a double forward step is two single forward steps: wherever `Pawn2FW[c][s]` is not
empty, `PawnFW[c][s]` has exactly one bit set, at a square `t`, and
`Pawn2FW[c][s] = PawnFW[c][t]`. -/
theorem pawn_double_is_two_single (c s : Nat) (hc : c < 2) (hs : s < 64)
    (h : (Pawn2FW.getD c []).at s ≠ 0) :
    ∃ t, t < 64 ∧ (PawnFW.getD c []).at s = 2 ^ t ∧
      popcount ((PawnFW.getD c []).at s) = 1 ∧
      (Pawn2FW.getD c []).at s = (PawnFW.getD c []).at t := by
  have key : ∀ c, c < 2 → ∀ s, s < 64 → (Pawn2FW.getD c []).at s ≠ 0 →
      ∃ t, t < 64 ∧ (PawnFW.getD c []).at s = 2 ^ t ∧
        popcount ((PawnFW.getD c []).at s) = 1 ∧
        (Pawn2FW.getD c []).at s = (PawnFW.getD c []).at t := by decide!
  exact key c hc s hs h

/-- Witness of C17: black (1) on e7 (52); the intermediate square is e6 (44). -/
theorem pawn_double_is_two_single_witness :
    ∃ t, t < 64 ∧ (PawnFW.getD 1 []).at 52 = 2 ^ t ∧
      popcount ((PawnFW.getD 1 []).at 52) = 1 ∧
      (Pawn2FW.getD 1 []).at 52 = (PawnFW.getD 1 []).at t :=
  pawn_double_is_two_single 1 52 (by decide) (by decide) (by decide!)

/-! ### C12, C13: the between-squares table -/

/-- Bit `t` of the between-walk with `n` steps allowed is set exactly when `t` is the `k`-th
stepped-to square for some `1 ≤ k ≤ n` and none of the first `k` stepped-to squares is the
target. -/
theorem walkBetween_testBit (d : Int × Int) (target n : Nat) (f r : Int) (t : Nat) :
    (walkBetween d target n f r).testBit t = true ↔
      ∃ k : Nat, 1 ≤ k ∧ k ≤ n ∧
        (∀ j : Nat, 1 ≤ j → j ≤ k → squareOf (f + j * d.1) (r + j * d.2) ≠ target) ∧
        t = squareOf (f + k * d.1) (r + k * d.2) := by
  induction n generalizing f r with
  | zero =>
    constructor
    · intro h; simp [walkBetween] at h
    · rintro ⟨k, h1, h2, _⟩; omega
  | succ n ih =>
    have one_f : f + ((1 : Nat) : Int) * d.1 = f + d.1 := by simp
    have one_r : r + ((1 : Nat) : Int) * d.2 = r + d.2 := by simp
    have shift_f : ∀ j : Nat, f + ((j + 1 : Nat) : Int) * d.1 = f + d.1 + (j : Int) * d.1 := by
      intro j; push_cast; ring
    have shift_r : ∀ j : Nat, r + ((j + 1 : Nat) : Int) * d.2 = r + d.2 + (j : Int) * d.2 := by
      intro j; push_cast; ring
    rw [walkBetween]
    by_cases hb : squareOf (f + d.1) (r + d.2) = target
    · rw [if_pos hb]
      constructor
      · intro h; simp at h
      · rintro ⟨k, h1, _, hne, _⟩
        have := hne 1 (le_refl 1) h1
        rw [one_f, one_r] at this
        exact absurd hb this
    · rw [if_neg hb, Nat.testBit_or, Bool.or_eq_true, Nat.testBit_two_pow, decide_eq_true_eq, ih]
      constructor
      · rintro (h | ⟨k, h1, h2, hne, ht⟩)
        · refine ⟨1, le_refl 1, by omega, ?_, ?_⟩
          · intro j hj1 hj2
            have : j = 1 := by omega
            subst this; rw [one_f, one_r]; exact hb
          · rw [one_f, one_r]; exact h.symm
        · refine ⟨k + 1, by omega, by omega, ?_, ?_⟩
          · intro j hj1 hj2
            obtain ⟨i, rfl⟩ : ∃ i, j = i + 1 := ⟨j - 1, by omega⟩
            rw [shift_f, shift_r]
            rcases Nat.eq_zero_or_pos i with h0 | h0
            · subst h0; simpa using hb
            · exact hne i h0 (by omega)
          · rw [shift_f, shift_r]; exact ht
      · rintro ⟨k, h1, h2, hne, ht⟩
        rcases Nat.eq_or_lt_of_le h1 with h | h
        · subst h; rw [one_f, one_r] at ht; exact Or.inl ht.symm
        · obtain ⟨i, rfl⟩ : ∃ i, k = i + 1 := ⟨k - 1, by omega⟩
          right
          refine ⟨i, by omega, by omega, ?_, ?_⟩
          · intro j hj1 hj2
            have := hne (j + 1) (by omega) (by omega)
            rwa [shift_f, shift_r] at this
          · rwa [shift_f, shift_r] at ht

/-- A file index is below 8. -/
theorem file_lt (x : Nat) : file x < 8 := by unfold file; omega

/-- The rank index of a square below 64 is below 8. -/
theorem rank_lt {x : Nat} (h : x < 64) : rank x < 8 := by unfold rank; omega

/-- A square is the square of its own file and rank. -/
theorem squareOf_file_rank (x : Nat) : squareOf (file x) (rank x) = x := by
  unfold squareOf file rank; omega

/-- File and rank of the square of an on-board file/rank pair. -/
theorem file_rank_squareOf {f r : Int} (h : onBoard f r = true) :
    (file (squareOf f r) : Int) = f ∧ (rank (squareOf f r) : Int) = r := by
  simp only [onBoard, decide_eq_true_eq] at h
  unfold squareOf file rank
  omega

/-- The board-edge test, unfolded. -/
theorem onBoard_iff (f r : Int) : onBoard f r = true ↔ (0 ≤ f ∧ f < 8 ∧ 0 ≤ r ∧ r < 8) := by
  simp [onBoard]

set_option maxHeartbeats 1000000 in
/-- The between-walk from `a` in a unit direction that reaches `b` after `n ≥ 1` steps
collects exactly the squares strictly between `a` and `b`. -/
theorem between_core (a b t : Nat) (ha : a < 64) (hb : b < 64) (s1 s2 : Int)
    (hs1 : s1 = -1 ∨ s1 = 0 ∨ s1 = 1) (hs2 : s2 = -1 ∨ s2 = 0 ∨ s2 = 1)
    (hs : s1 ≠ 0 ∨ s2 ≠ 0) (n : Nat) (hn : 1 ≤ n)
    (hf : (file b : Int) = file a + n * s1) (hr : (rank b : Int) = rank a + n * s2) :
    (walkBetween (s1, s2) b 8 (file a) (rank a)).testBit t = true ↔ StrictlyBetween a b t := by
  rw [walkBetween_testBit]
  have hfa := file_lt a
  have hfb := file_lt b
  have hft := file_lt t
  have hra := rank_lt ha
  have hrb := rank_lt hb
  have hbsq := squareOf_file_rank b
  have htsq := squareOf_file_rank t
  unfold StrictlyBetween strictlyInside
  dsimp only
  constructor
  · rintro ⟨k, hk1, hk8, hne, ht⟩
    have hkn : k < n := by
      by_contra hc
      apply hne n hn (by omega)
      rw [← hf, ← hr]; exact hbsq
    have hon : onBoard ((file a : Int) + k * s1) ((rank a : Int) + k * s2) = true := by
      rw [onBoard_iff]
      rcases hs1 with rfl | rfl | rfl <;> rcases hs2 with rfl | rfl | rfl <;> omega
    obtain ⟨e1, e2⟩ := file_rank_squareOf hon
    rw [← ht] at e1 e2
    rcases hs1 with rfl | rfl | rfl <;> rcases hs2 with rfl | rfl | rfl <;> omega
  · intro h
    have hk : ∃ k : Nat, 1 ≤ k ∧ k < n ∧ (file t : Int) = file a + k * s1 ∧
        (rank t : Int) = rank a + k * s2 := by
      rcases hs1 with rfl | rfl | rfl <;> rcases hs2 with rfl | rfl | rfl <;>
        first
        | (exfalso; omega)
        | exact ⟨(file t - file a) + (file a - file t), by omega, by omega, by omega, by omega⟩
        | exact ⟨(rank t - rank a) + (rank a - rank t), by omega, by omega, by omega, by omega⟩
    obtain ⟨k, hk1, hkn, e1, e2⟩ := hk
    have hn7 : n ≤ 7 := by
      rcases hs1 with rfl | rfl | rfl <;> rcases hs2 with rfl | rfl | rfl <;> omega
    refine ⟨k, hk1, by omega, ?_, ?_⟩
    · intro j hj1 hj2 hEq
      have hon : onBoard ((file a : Int) + j * s1) ((rank a : Int) + j * s2) = true := by
        rw [onBoard_iff]
        rcases hs1 with rfl | rfl | rfl <;> rcases hs2 with rfl | rfl | rfl <;> omega
      have honb : onBoard (file b) (rank b) = true := by
        rw [onBoard_iff]; omega
      rw [← hbsq] at hEq
      obtain ⟨c1, c2⟩ := squareOf_inj hon honb hEq
      rcases hs1 with rfl | rfl | rfl <;> rcases hs2 with rfl | rfl | rfl <;> omega
    · rw [← e1, ← e2]; exact htsq.symm

set_option maxHeartbeats 1000000 in
/-- Bit `t` of `calculate_inBetween(a, b)` is set exactly when `t` is strictly between `a`
and `b` on a rank, file or diagonal they share; eight steps are enough for the walk. -/
theorem calculate_inBetween_testBit (a b t : Nat) (ha : a < 64) (hb : b < 64) :
    (calculate_inBetween a b).testBit t = true ↔ StrictlyBetween a b t := by
  have hfa := file_lt a
  have hfb := file_lt b
  have hft := file_lt t
  have hra := rank_lt ha
  have hrb := rank_lt hb
  by_cases h1 : ((file b : Int) - (file a : Int) = 0 ∧ (rank b : Int) - (rank a : Int) = 0)
  · have e : calculate_inBetween a b = 0 := by
      simp only [calculate_inBetween, unitDirection, h1, and_self, if_true]
    rw [e]
    unfold StrictlyBetween strictlyInside
    simp only [Nat.zero_testBit, Bool.false_eq_true, false_iff]
    omega
  · by_cases h2 : ((file b : Int) - (file a : Int) = 0 ∨ (rank b : Int) - (rank a : Int) = 0 ∨
        (file b : Int) - (file a : Int) = (rank b : Int) - (rank a : Int) ∨
        (file b : Int) - (file a : Int) = -((rank b : Int) - (rank a : Int)))
    · have e : calculate_inBetween a b =
          walkBetween (Int.sign ((file b : Int) - (file a : Int)),
            Int.sign ((rank b : Int) - (rank a : Int))) b 8 (file a) (rank a) := by
        simp only [calculate_inBetween, unitDirection, if_neg h1, if_pos h2]
      rw [e]
      have s1 : Int.sign ((file b : Int) - (file a : Int)) = -1 ∧ (file b : Int) - file a < 0 ∨
          Int.sign ((file b : Int) - (file a : Int)) = 0 ∧ (file b : Int) - file a = 0 ∨
          Int.sign ((file b : Int) - (file a : Int)) = 1 ∧ 0 < (file b : Int) - file a := by
        rcases lt_trichotomy ((file b : Int) - (file a : Int)) 0 with h | h | h
        · exact Or.inl ⟨Int.sign_eq_neg_one_of_neg h, h⟩
        · exact Or.inr (Or.inl ⟨by rw [h]; rfl, h⟩)
        · exact Or.inr (Or.inr ⟨Int.sign_eq_one_of_pos h, h⟩)
      have s2 : Int.sign ((rank b : Int) - (rank a : Int)) = -1 ∧ (rank b : Int) - rank a < 0 ∨
          Int.sign ((rank b : Int) - (rank a : Int)) = 0 ∧ (rank b : Int) - rank a = 0 ∨
          Int.sign ((rank b : Int) - (rank a : Int)) = 1 ∧ 0 < (rank b : Int) - rank a := by
        rcases lt_trichotomy ((rank b : Int) - (rank a : Int)) 0 with h | h | h
        · exact Or.inl ⟨Int.sign_eq_neg_one_of_neg h, h⟩
        · exact Or.inr (Or.inl ⟨by rw [h]; rfl, h⟩)
        · exact Or.inr (Or.inr ⟨Int.sign_eq_one_of_pos h, h⟩)
      rcases s1 with ⟨e1, c1⟩ | ⟨e1, c1⟩ | ⟨e1, c1⟩ <;>
        rcases s2 with ⟨e2, c2⟩ | ⟨e2, c2⟩ | ⟨e2, c2⟩ <;> rw [e1, e2] <;>
        first
        | (exfalso; omega)
        | exact between_core a b t ha hb _ _ (by decide) (by decide) (by decide)
            (max ((file b - file a) + (file a - file b)) ((rank b - rank a) + (rank a - rank b)))
            (by omega) (by omega) (by omega)
    · have e : calculate_inBetween a b = 0 := by
        simp only [calculate_inBetween, unitDirection, if_neg h1, if_neg h2]
      rw [e]
      unfold StrictlyBetween strictlyInside
      simp only [Nat.zero_testBit, Bool.false_eq_true, false_iff]
      omega

/-- The table entry `BetweenBB[a][b]` after `init_lut` is `calculate_inBetween(a, b)`. -/
theorem BetweenBB_eq (a b : Nat) (ha : a < 64) (hb : b < 64) :
    BetweenBB a b = calculate_inBetween a b := by
  unfold BetweenBB init_lut generate_inBetweenLUT
  simp [List.getD_eq_getElem?_getD, List.getElem?_map, List.getElem?_range, ha, hb]

/-- Strict betweenness does not depend on the order of the two end squares. -/
theorem StrictlyBetween_swap (a b t : Nat) (h : StrictlyBetween a b t) :
    StrictlyBetween b a t := by
  unfold StrictlyBetween strictlyInside at *
  rcases h with ⟨h1, h2, h3⟩ | ⟨h1, h2, h3⟩ | ⟨h1, h2, h3⟩ | ⟨h1, h2, h3⟩
  · exact Or.inl ⟨by omega, by omega, by omega⟩
  · exact Or.inr (Or.inl ⟨by omega, by omega, by omega⟩)
  · exact Or.inr (Or.inr (Or.inl ⟨by omega, by omega, by omega⟩))
  · exact Or.inr (Or.inr (Or.inr ⟨by omega, by omega, by omega⟩))

/-- No square is strictly between a square and itself, or between two squares that are not
aligned. -/
theorem not_StrictlyBetween (a b t : Nat) (h : a = b ∨ ¬ aligned a b) :
    ¬ StrictlyBetween a b t := by
  unfold aligned at h
  unfold StrictlyBetween strictlyInside
  rcases h with rfl | h
  · omega
  · omega

/-- The end squares are not strictly between themselves. -/
theorem StrictlyBetween_ne (a b t : Nat) (h : StrictlyBetween a b t) : t ≠ a ∧ t ≠ b := by
  unfold StrictlyBetween strictlyInside at h
  constructor <;> rintro rfl <;> omega

/-- C12: the between-squares table is symmetric: `calculate_inBetween(a, b)` equals
`calculate_inBetween(b, a)`, and so do the entries `BetweenBB[a][b]` and `BetweenBB[b][a]`
after `init_lut`. -/
theorem BetweenBB_symmetric (a b : Nat) (ha : a < 64) (hb : b < 64) :
    calculate_inBetween a b = calculate_inBetween b a ∧ BetweenBB a b = BetweenBB b a := by
  have key : calculate_inBetween a b = calculate_inBetween b a := by
    apply Nat.eq_of_testBit_eq
    intro t
    rw [Bool.eq_iff_iff, calculate_inBetween_testBit a b t ha hb,
      calculate_inBetween_testBit b a t hb ha]
    exact ⟨StrictlyBetween_swap a b t, StrictlyBetween_swap b a t⟩
  exact ⟨key, by rw [BetweenBB_eq a b ha hb, BetweenBB_eq b a hb ha, key]⟩

/-- Witness of C12: a1 (0) and h8 (63). -/
theorem BetweenBB_symmetric_witness :
    calculate_inBetween 0 63 = calculate_inBetween 63 0 ∧ BetweenBB 0 63 = BetweenBB 63 0 :=
  BetweenBB_symmetric 0 63 (by decide) (by decide)

/-- C13: for squares `a` and `b`, `calculate_inBetween(a, b)`, and the entry `BetweenBB[a][b]`
after `init_lut`, is exactly the set of squares strictly between them on the rank, file or
diagonal they share, both end squares excluded; it is the empty bitboard when `a = b` or
when the two squares are not aligned. -/
theorem calculate_inBetween_geometric (a b : Nat) (ha : a < 64) (hb : b < 64) :
    (∀ t, (calculate_inBetween a b).testBit t = true ↔ StrictlyBetween a b t) ∧
    (∀ t, (BetweenBB a b).testBit t = true ↔ StrictlyBetween a b t) ∧
    (calculate_inBetween a b).testBit a = false ∧
    (calculate_inBetween a b).testBit b = false ∧
    ((a = b ∨ ¬ aligned a b) → calculate_inBetween a b = 0 ∧ BetweenBB a b = 0) := by
  have hbit := fun t => calculate_inBetween_testBit a b t ha hb
  refine ⟨hbit, ?_, ?_, ?_, ?_⟩
  · intro t; rw [BetweenBB_eq a b ha hb]; exact hbit t
  · rw [← Bool.not_eq_true, hbit]
    exact fun h => (StrictlyBetween_ne a b a h).1 rfl
  · rw [← Bool.not_eq_true, hbit]
    exact fun h => (StrictlyBetween_ne a b b h).2 rfl
  · intro h
    have e : calculate_inBetween a b = 0 := by
      apply Nat.eq_of_testBit_eq
      intro t
      rw [Nat.zero_testBit, ← Bool.not_eq_true, hbit]
      exact not_StrictlyBetween a b t h
    exact ⟨e, by rw [BetweenBB_eq a b ha hb, e]⟩

/-- Witness of C13: a1 (0) and d4 (27), two squares of the long diagonal. -/
theorem calculate_inBetween_geometric_witness :
    (∀ t, (calculate_inBetween 0 27).testBit t = true ↔ StrictlyBetween 0 27 t) ∧
    (∀ t, (BetweenBB 0 27).testBit t = true ↔ StrictlyBetween 0 27 t) ∧
    (calculate_inBetween 0 27).testBit 0 = false ∧
    (calculate_inBetween 0 27).testBit 27 = false ∧
    (((0 : Nat) = 27 ∨ ¬ aligned 0 27) → calculate_inBetween 0 27 = 0 ∧ BetweenBB 0 27 = 0) :=
  calculate_inBetween_geometric 0 27 (by decide) (by decide)

/-- The between-squares model on concrete pairs: the two long diagonals, a rank, a file and a
pair that is not aligned. -/
theorem calculate_inBetween_examples :
    calculate_inBetween 0 63 = 2 ^ 9 ||| 2 ^ 18 ||| 2 ^ 27 ||| 2 ^ 36 ||| 2 ^ 45 ||| 2 ^ 54 ∧
    calculate_inBetween 7 56 = 2 ^ 14 ||| 2 ^ 21 ||| 2 ^ 28 ||| 2 ^ 35 ||| 2 ^ 42 ||| 2 ^ 49 ∧
    calculate_inBetween 3 1 = 2 ^ 2 ∧
    calculate_inBetween 4 28 = 2 ^ 12 ||| 2 ^ 20 ∧
    calculate_inBetween 3 12 = 0 ∧ calculate_inBetween 0 10 = 0 ∧
    calculate_inBetween 5 5 = 0 := by
  decide!

/-! ### C11: queen and the dispatch on the piece type -/

/-- The walk over two lists of directions is the union of the two walks. -/
theorem lines_append (A B : List (Int × Int)) (sq enemy friendly : Nat) :
    lines (A ++ B) sq enemy friendly = lines A sq enemy friendly ||| lines B sq enemy friendly := by
  apply Nat.eq_of_testBit_eq
  intro t
  rw [Bool.eq_iff_iff, Nat.testBit_or, Bool.or_eq_true]
  unfold lines
  simp only [foldl_or_testBit, Nat.zero_testBit, Bool.false_eq_true, false_or, List.mem_append]
  constructor
  · rintro ⟨d, hd | hd, h⟩
    · exact Or.inl ⟨d, hd, h⟩
    · exact Or.inr ⟨d, hd, h⟩
  · rintro (⟨d, hd, h⟩ | ⟨d, hd, h⟩)
    · exact ⟨d, Or.inl hd, h⟩
    · exact ⟨d, Or.inr hd, h⟩

/-- C11: `queen_landings` is the union of `rook_landings` and `bishop_landings` on the same
arguments, and `sliding_peices_landings` gives `rook_landings`, `bishop_landings` or
`queen_landings` on the same arguments for the piece types Rook, Bishop and Queen. -/
theorem queen_landings_union (sq friendly enemy : Nat) :
    queen_landings sq friendly enemy =
      rook_landings sq friendly enemy ||| bishop_landings sq friendly enemy ∧
    sliding_peices_landings PieceType.Rook sq friendly enemy =
      some (rook_landings sq friendly enemy) ∧
    sliding_peices_landings PieceType.Bishop sq friendly enemy =
      some (bishop_landings sq friendly enemy) ∧
    sliding_peices_landings PieceType.Queen sq friendly enemy =
      some (queen_landings sq friendly enemy) := by
  refine ⟨?_, rfl, rfl, rfl⟩
  unfold queen_landings rook_landings bishop_landings straight_lines diago_lines
  exact lines_append straightDirs diagoDirs sq enemy friendly

/-- The queen on d4 (27) on an empty board reaches 27 squares; with a friend on d6 (43) and
an enemy on f6 (45) she reaches d5 but not d6, and f6 but not g7 (54). -/
theorem queen_landings_examples :
    popcount (queen_landings 27 0 0) = 27 ∧
    (queen_landings 27 (2 ^ 43) (2 ^ 45) &&& (2 ^ 35 ||| 2 ^ 43 ||| 2 ^ 45 ||| 2 ^ 54))
      = 2 ^ 35 ||| 2 ^ 45 := by
  decide!

/-! ### C14: the indexed attack table -/

/-- Every bitboard whose bits all lie in a list of positions is one of the subsets over
that list. -/
theorem mem_subsetsOf (l : List Nat) (occ : Nat) (h : ∀ i, occ.testBit i = true → i ∈ l) :
    occ ∈ subsetsOf l := by
  induction l generalizing occ with
  | nil =>
    have : occ = 0 := by
      apply Nat.eq_of_testBit_eq
      intro i
      rw [Nat.zero_testBit, ← Bool.not_eq_true]
      intro hi
      exact absurd (h i hi) (List.not_mem_nil i)
    rw [this]; simp [subsetsOf]
  | cons b bs ih =>
    rw [subsetsOf, List.mem_append]
    by_cases hb : occ.testBit b = true
    · right
      rw [List.mem_map]
      refine ⟨occ ^^^ 2 ^ b, ih _ ?_, ?_⟩
      · intro i hi
        rw [Nat.testBit_xor, Nat.testBit_two_pow] at hi
        by_cases hbi : b = i
        · subst hbi; simp [hb] at hi
        · have hi' : occ.testBit i = true := by simpa [hbi] using hi
          rcases List.mem_cons.mp (h i hi') with e | e
          · exact absurd e.symm hbi
          · exact e
      · apply Nat.eq_of_testBit_eq
        intro i
        rw [Nat.testBit_or, Nat.testBit_xor, Nat.testBit_two_pow]
        by_cases hbi : b = i
        · subst hbi; simp [hb]
        · simp [hbi]
    · left
      apply ih
      intro i hi
      rcases List.mem_cons.mp (h i hi) with e | e
      · subst e; exact absurd hi hb
      · exact e

/-- Every subset of a 64-bit mask is one of its relevant subsets. -/
theorem mem_relevantSubsets (mask occ : Nat) (hm : mask < 2 ^ 64) (h : occ &&& mask = occ) :
    occ ∈ relevantSubsets mask := by
  apply mem_subsetsOf
  intro i hi
  have hmi : mask.testBit i = true := by
    rw [← h, Nat.testBit_and, Bool.and_eq_true] at hi
    exact hi.2
  have hi64 : i < 64 := by
    by_contra hge
    rw [testBit_false_of_ge hm (Nat.le_of_not_lt hge)] at hmi
    exact Bool.noConfusion hmi
  exact List.mem_filter.mpr ⟨List.mem_range.mpr hi64, hmi⟩

/-- Every relevant subset of a mask is a subset of the mask. -/
theorem subset_of_mem_subsetsOf (l : List Nat) (mask occ : Nat)
    (hl : ∀ i ∈ l, mask.testBit i = true) (h : occ ∈ subsetsOf l) : occ &&& mask = occ := by
  induction l generalizing occ with
  | nil =>
    simp only [subsetsOf, List.mem_singleton] at h
    rw [h]; exact Nat.zero_and mask
  | cons b bs ih =>
    have hbs : ∀ i ∈ bs, mask.testBit i = true := fun i hi => hl i (List.mem_cons_of_mem b hi)
    rw [subsetsOf, List.mem_append, List.mem_map] at h
    rcases h with h | ⟨o, ho, rfl⟩
    · exact ih occ hbs h
    · have e := ih o hbs ho
      apply Nat.eq_of_testBit_eq
      intro i
      rw [Nat.testBit_and, Nat.testBit_or, Nat.testBit_two_pow]
      by_cases hbi : b = i
      · subst hbi; simp [hl b (List.mem_cons_self b bs)]
      · have : (o &&& mask).testBit i = o.testBit i := by rw [e]
        rw [Nat.testBit_and] at this
        simp [hbi, this]

/-- Storing into a row leaves an index alone that no listed subset is mapped to. -/
theorem fold_set_untouched (index value : Nat → Nat) (l : List Nat) (row : List Nat) (j : Nat)
    (h : ∀ o ∈ l, index o ≠ j) :
    (l.foldl (fun row occ => row.set (index occ) (value occ)) row).getD j 0 = row.getD j 0 := by
  induction l generalizing row with
  | nil => rfl
  | cons a l ih =>
    rw [List.foldl_cons, ih _ (fun o ho => h o (List.mem_cons_of_mem a ho))]
    have hne : index a ≠ j := h a (List.mem_cons_self a l)
    simp [List.getD_eq_getElem?_getD, List.getElem?_set, hne]

/-- After storing every listed subset, an injective in-range index finds the value of each
listed subset at its index. -/
theorem fold_set_lookup (index value : Nat → Nat) (l : List Nat) (row : List Nat)
    (hrange : ∀ o ∈ l, index o < row.length)
    (hinj : ∀ o1 ∈ l, ∀ o2 ∈ l, index o1 = index o2 → o1 = o2) (o : Nat) (ho : o ∈ l) :
    (l.foldl (fun row occ => row.set (index occ) (value occ)) row).getD (index o) 0
      = value o := by
  induction l generalizing row with
  | nil => exact absurd ho (List.not_mem_nil o)
  | cons a l ih =>
    rw [List.foldl_cons]
    by_cases hol : o ∈ l
    · apply ih
      · intro o' ho'
        rw [List.length_set]
        exact hrange o' (List.mem_cons_of_mem a ho')
      · exact fun o1 h1 o2 h2 =>
          hinj o1 (List.mem_cons_of_mem a h1) o2 (List.mem_cons_of_mem a h2)
      · exact hol
    · have hoa : o = a := by
        rcases List.mem_cons.mp ho with e | e
        · exact e
        · exact absurd e hol
      subst hoa
      rw [fold_set_untouched]
      · have hlt := hrange o (List.mem_cons_self o l)
        simp [List.getD_eq_getElem?_getD, List.getElem?_set, hlt]
      · intro o' ho' heq
        have := hinj o' (List.mem_cons_of_mem o ho') o (List.mem_cons_self o l) heq
        rw [this] at ho'
        exact hol ho'

/-- A row filled under a perfect index holds, at the index of every subset of the mask,
the value stored for that subset. -/
theorem fillRow_lookup (mask : Nat) (index value : Nat → Nat) (h : PerfectIndex mask index)
    (occ : Nat) (hocc : occ &&& mask = occ) :
    (fillRow index value (relevantSubsets mask)).getD (index occ) 0 = value occ := by
  obtain ⟨hm, hrange, hinj⟩ := h
  have hsub : ∀ o ∈ relevantSubsets mask, o &&& mask = o := by
    intro o ho
    apply subset_of_mem_subsetsOf _ mask o _ ho
    intro i hi
    exact (List.mem_filter.mp hi).2
  unfold fillRow
  apply fold_set_lookup
  · intro o ho
    rw [List.length_replicate]
    exact hrange o (hsub o ho)
  · exact fun o1 h1 o2 h2 => hinj o1 o2 (hsub o1 h1) (hsub o2 h2)
  · exact mem_relevantSubsets mask occ hm hocc

/-- C14: under the contract of the external compacted-occupancy index (the index of every
subset of the square's relevant-occupancy mask is in `[0,4096)` and distinct subsets have
distinct indices), the entry of `Rattacks`, respectively `Battacks`, addressed by `sq` and
the index of a subset `occ` of the mask is the ray engine's result for `sq` with `occ` as
enemy occupancy and no friendly occupancy. -/
theorem indexed_attack_table_lookup (rmask bmask : Nat → Nat) (rindex bindex : Nat → Nat → Nat)
    (sq : Nat) (hsq : sq < 64) (hr : PerfectIndex (rmask sq) (rindex sq))
    (hb : PerfectIndex (bmask sq) (bindex sq)) :
    (∀ occ, occ &&& rmask sq = occ →
      rindex sq occ < 4096 ∧
      tableAt (Rattacks rmask rindex) sq (rindex sq occ) = rook_landings sq 0 occ) ∧
    (∀ occ, occ &&& bmask sq = occ →
      bindex sq occ < 4096 ∧
      tableAt (Battacks bmask bindex) sq (bindex sq occ) = bishop_landings sq 0 occ) := by
  constructor
  · intro occ hocc
    refine ⟨hr.2.1 occ hocc, ?_⟩
    have e : (Rattacks rmask rindex).getD sq [] =
        fillRow (rindex sq) (fun occ => rook_landings sq 0 occ) (relevantSubsets (rmask sq)) := by
      unfold Rattacks
      simp [List.getD_eq_getElem?_getD, List.getElem?_map, List.getElem?_range, hsq]
    unfold tableAt
    rw [e]
    exact fillRow_lookup (rmask sq) (rindex sq) _ hr occ hocc
  · intro occ hocc
    refine ⟨hb.2.1 occ hocc, ?_⟩
    have e : (Battacks bmask bindex).getD sq [] =
        fillRow (bindex sq) (fun occ => bishop_landings sq 0 occ)
          (relevantSubsets (bmask sq)) := by
      unfold Battacks
      simp [List.getD_eq_getElem?_getD, List.getElem?_map, List.getElem?_range, hsq]
    unfold tableAt
    rw [e]
    exact fillRow_lookup (bmask sq) (bindex sq) _ hb occ hocc

/-- Two numbers written as a low bit plus twice a rest are equal only when the low bits and
the rests are equal. -/
theorem peel_low_bit (x y a b : Nat) (hx : x < 2) (hy : y < 2) (h : x + 2 * a = y + 2 * b) :
    x = y ∧ a = b := by
  omega

/-- A compacted-occupancy index for the rook on d4 (27): the relevant occupancy is d2, d3, d5,
d6, d7 and b4, c4, e4, f4, g4, and the index packs these ten bits in ascending order. -/
theorem perfectIndex_rook_d4 :
    PerfectIndex 2260632246683648
      (fun o => o / 2 ^ 11 % 2 + 2 * (o / 2 ^ 19 % 2 + 2 * (o / 2 ^ 25 % 2 + 2 * (o / 2 ^ 26 % 2 + 2 * (o / 2 ^ 28 % 2 + 2 * (o / 2 ^ 29 % 2 + 2 * (o / 2 ^ 30 % 2 + 2 * (o / 2 ^ 35 % 2 + 2 * (o / 2 ^ 43 % 2 + 2 * (o / 2 ^ 51 % 2)))))))))) := by
  refine ⟨by decide, fun o _ => ?_, ?_⟩
  · show o / 2 ^ 11 % 2 + 2 * (o / 2 ^ 19 % 2 + 2 * (o / 2 ^ 25 % 2 + 2 * (o / 2 ^ 26 % 2 + 2 * (o / 2 ^ 28 % 2 + 2 * (o / 2 ^ 29 % 2 + 2 * (o / 2 ^ 30 % 2 + 2 * (o / 2 ^ 35 % 2 + 2 * (o / 2 ^ 43 % 2 + 2 * (o / 2 ^ 51 % 2))))))))) < 4096
    have b0 := Nat.mod_lt (o / 2 ^ 11) (show 0 < 2 by decide)
    generalize o / 2 ^ 11 % 2 = x0 at b0 ⊢
    have b1 := Nat.mod_lt (o / 2 ^ 19) (show 0 < 2 by decide)
    generalize o / 2 ^ 19 % 2 = x1 at b1 ⊢
    have b2 := Nat.mod_lt (o / 2 ^ 25) (show 0 < 2 by decide)
    generalize o / 2 ^ 25 % 2 = x2 at b2 ⊢
    have b3 := Nat.mod_lt (o / 2 ^ 26) (show 0 < 2 by decide)
    generalize o / 2 ^ 26 % 2 = x3 at b3 ⊢
    have b4 := Nat.mod_lt (o / 2 ^ 28) (show 0 < 2 by decide)
    generalize o / 2 ^ 28 % 2 = x4 at b4 ⊢
    have b5 := Nat.mod_lt (o / 2 ^ 29) (show 0 < 2 by decide)
    generalize o / 2 ^ 29 % 2 = x5 at b5 ⊢
    have b6 := Nat.mod_lt (o / 2 ^ 30) (show 0 < 2 by decide)
    generalize o / 2 ^ 30 % 2 = x6 at b6 ⊢
    have b7 := Nat.mod_lt (o / 2 ^ 35) (show 0 < 2 by decide)
    generalize o / 2 ^ 35 % 2 = x7 at b7 ⊢
    have b8 := Nat.mod_lt (o / 2 ^ 43) (show 0 < 2 by decide)
    generalize o / 2 ^ 43 % 2 = x8 at b8 ⊢
    have b9 := Nat.mod_lt (o / 2 ^ 51) (show 0 < 2 by decide)
    generalize o / 2 ^ 51 % 2 = x9 at b9 ⊢
    omega
  · intro o1 o2 h1 h2 e
    have bits : ∀ i, i < 64 → (2260632246683648 : Nat).testBit i = true →
        i = 11 ∨ i = 19 ∨ i = 25 ∨ i = 26 ∨ i = 28 ∨ i = 29 ∨ i = 30 ∨ i = 35 ∨ i = 43 ∨ i = 51 := by decide!
    have e1 : ∀ i, o1.testBit i = (o1.testBit i && (2260632246683648 : Nat).testBit i) := by
      intro i; rw [← Nat.testBit_and, h1]
    have e2 : ∀ i, o2.testBit i = (o2.testBit i && (2260632246683648 : Nat).testBit i) := by
      intro i; rw [← Nat.testBit_and, h2]
    replace e : o1 / 2 ^ 11 % 2 + 2 * (o1 / 2 ^ 19 % 2 + 2 * (o1 / 2 ^ 25 % 2 + 2 * (o1 / 2 ^ 26 % 2 + 2 * (o1 / 2 ^ 28 % 2 + 2 * (o1 / 2 ^ 29 % 2 + 2 * (o1 / 2 ^ 30 % 2 + 2 * (o1 / 2 ^ 35 % 2 + 2 * (o1 / 2 ^ 43 % 2 + 2 * (o1 / 2 ^ 51 % 2))))))))) =
        o2 / 2 ^ 11 % 2 + 2 * (o2 / 2 ^ 19 % 2 + 2 * (o2 / 2 ^ 25 % 2 + 2 * (o2 / 2 ^ 26 % 2 + 2 * (o2 / 2 ^ 28 % 2 + 2 * (o2 / 2 ^ 29 % 2 + 2 * (o2 / 2 ^ 30 % 2 + 2 * (o2 / 2 ^ 35 % 2 + 2 * (o2 / 2 ^ 43 % 2 + 2 * (o2 / 2 ^ 51 % 2))))))))) := e
    obtain ⟨c0, e⟩ := peel_low_bit _ _ _ _ (Nat.mod_lt _ (by decide)) (Nat.mod_lt _ (by decide)) e
    obtain ⟨c1, e⟩ := peel_low_bit _ _ _ _ (Nat.mod_lt _ (by decide)) (Nat.mod_lt _ (by decide)) e
    obtain ⟨c2, e⟩ := peel_low_bit _ _ _ _ (Nat.mod_lt _ (by decide)) (Nat.mod_lt _ (by decide)) e
    obtain ⟨c3, e⟩ := peel_low_bit _ _ _ _ (Nat.mod_lt _ (by decide)) (Nat.mod_lt _ (by decide)) e
    obtain ⟨c4, e⟩ := peel_low_bit _ _ _ _ (Nat.mod_lt _ (by decide)) (Nat.mod_lt _ (by decide)) e
    obtain ⟨c5, e⟩ := peel_low_bit _ _ _ _ (Nat.mod_lt _ (by decide)) (Nat.mod_lt _ (by decide)) e
    obtain ⟨c6, e⟩ := peel_low_bit _ _ _ _ (Nat.mod_lt _ (by decide)) (Nat.mod_lt _ (by decide)) e
    obtain ⟨c7, e⟩ := peel_low_bit _ _ _ _ (Nat.mod_lt _ (by decide)) (Nat.mod_lt _ (by decide)) e
    obtain ⟨c8, e⟩ := peel_low_bit _ _ _ _ (Nat.mod_lt _ (by decide)) (Nat.mod_lt _ (by decide)) e
    apply Nat.eq_of_testBit_eq
    intro i
    by_cases hm : (2260632246683648 : Nat).testBit i = true
    · have hi : i < 64 := by
        by_contra hge
        rw [testBit_false_of_ge (by decide) (Nat.le_of_not_lt hge)] at hm
        exact Bool.noConfusion hm
      rcases bits i hi hm with rfl | rfl | rfl | rfl | rfl | rfl | rfl | rfl | rfl | rfl
      · rw [Nat.testBit_to_div_mod, Nat.testBit_to_div_mod, c0]
      · rw [Nat.testBit_to_div_mod, Nat.testBit_to_div_mod, c1]
      · rw [Nat.testBit_to_div_mod, Nat.testBit_to_div_mod, c2]
      · rw [Nat.testBit_to_div_mod, Nat.testBit_to_div_mod, c3]
      · rw [Nat.testBit_to_div_mod, Nat.testBit_to_div_mod, c4]
      · rw [Nat.testBit_to_div_mod, Nat.testBit_to_div_mod, c5]
      · rw [Nat.testBit_to_div_mod, Nat.testBit_to_div_mod, c6]
      · rw [Nat.testBit_to_div_mod, Nat.testBit_to_div_mod, c7]
      · rw [Nat.testBit_to_div_mod, Nat.testBit_to_div_mod, c8]
      · rw [Nat.testBit_to_div_mod, Nat.testBit_to_div_mod, e]
    · rw [e1 i, e2 i]
      simp [hm]

/-- A compacted-occupancy index for the bishop on d4 (27): the relevant occupancy is b2, c3, e5,
f6, g7 and f2, e3, c5, b6, and the index packs these nine bits in ascending order. -/
theorem perfectIndex_bishop_d4 :
    PerfectIndex 18051867805491712
      (fun o => o / 2 ^ 9 % 2 + 2 * (o / 2 ^ 13 % 2 + 2 * (o / 2 ^ 18 % 2 + 2 * (o / 2 ^ 20 % 2 + 2 * (o / 2 ^ 34 % 2 + 2 * (o / 2 ^ 36 % 2 + 2 * (o / 2 ^ 41 % 2 + 2 * (o / 2 ^ 45 % 2 + 2 * (o / 2 ^ 54 % 2))))))))) := by
  refine ⟨by decide, fun o _ => ?_, ?_⟩
  · show o / 2 ^ 9 % 2 + 2 * (o / 2 ^ 13 % 2 + 2 * (o / 2 ^ 18 % 2 + 2 * (o / 2 ^ 20 % 2 + 2 * (o / 2 ^ 34 % 2 + 2 * (o / 2 ^ 36 % 2 + 2 * (o / 2 ^ 41 % 2 + 2 * (o / 2 ^ 45 % 2 + 2 * (o / 2 ^ 54 % 2)))))))) < 4096
    have b0 := Nat.mod_lt (o / 2 ^ 9) (show 0 < 2 by decide)
    generalize o / 2 ^ 9 % 2 = x0 at b0 ⊢
    have b1 := Nat.mod_lt (o / 2 ^ 13) (show 0 < 2 by decide)
    generalize o / 2 ^ 13 % 2 = x1 at b1 ⊢
    have b2 := Nat.mod_lt (o / 2 ^ 18) (show 0 < 2 by decide)
    generalize o / 2 ^ 18 % 2 = x2 at b2 ⊢
    have b3 := Nat.mod_lt (o / 2 ^ 20) (show 0 < 2 by decide)
    generalize o / 2 ^ 20 % 2 = x3 at b3 ⊢
    have b4 := Nat.mod_lt (o / 2 ^ 34) (show 0 < 2 by decide)
    generalize o / 2 ^ 34 % 2 = x4 at b4 ⊢
    have b5 := Nat.mod_lt (o / 2 ^ 36) (show 0 < 2 by decide)
    generalize o / 2 ^ 36 % 2 = x5 at b5 ⊢
    have b6 := Nat.mod_lt (o / 2 ^ 41) (show 0 < 2 by decide)
    generalize o / 2 ^ 41 % 2 = x6 at b6 ⊢
    have b7 := Nat.mod_lt (o / 2 ^ 45) (show 0 < 2 by decide)
    generalize o / 2 ^ 45 % 2 = x7 at b7 ⊢
    have b8 := Nat.mod_lt (o / 2 ^ 54) (show 0 < 2 by decide)
    generalize o / 2 ^ 54 % 2 = x8 at b8 ⊢
    omega
  · intro o1 o2 h1 h2 e
    have bits : ∀ i, i < 64 → (18051867805491712 : Nat).testBit i = true →
        i = 9 ∨ i = 13 ∨ i = 18 ∨ i = 20 ∨ i = 34 ∨ i = 36 ∨ i = 41 ∨ i = 45 ∨ i = 54 := by decide!
    have e1 : ∀ i, o1.testBit i = (o1.testBit i && (18051867805491712 : Nat).testBit i) := by
      intro i; rw [← Nat.testBit_and, h1]
    have e2 : ∀ i, o2.testBit i = (o2.testBit i && (18051867805491712 : Nat).testBit i) := by
      intro i; rw [← Nat.testBit_and, h2]
    replace e : o1 / 2 ^ 9 % 2 + 2 * (o1 / 2 ^ 13 % 2 + 2 * (o1 / 2 ^ 18 % 2 + 2 * (o1 / 2 ^ 20 % 2 + 2 * (o1 / 2 ^ 34 % 2 + 2 * (o1 / 2 ^ 36 % 2 + 2 * (o1 / 2 ^ 41 % 2 + 2 * (o1 / 2 ^ 45 % 2 + 2 * (o1 / 2 ^ 54 % 2)))))))) =
        o2 / 2 ^ 9 % 2 + 2 * (o2 / 2 ^ 13 % 2 + 2 * (o2 / 2 ^ 18 % 2 + 2 * (o2 / 2 ^ 20 % 2 + 2 * (o2 / 2 ^ 34 % 2 + 2 * (o2 / 2 ^ 36 % 2 + 2 * (o2 / 2 ^ 41 % 2 + 2 * (o2 / 2 ^ 45 % 2 + 2 * (o2 / 2 ^ 54 % 2)))))))) := e
    obtain ⟨c0, e⟩ := peel_low_bit _ _ _ _ (Nat.mod_lt _ (by decide)) (Nat.mod_lt _ (by decide)) e
    obtain ⟨c1, e⟩ := peel_low_bit _ _ _ _ (Nat.mod_lt _ (by decide)) (Nat.mod_lt _ (by decide)) e
    obtain ⟨c2, e⟩ := peel_low_bit _ _ _ _ (Nat.mod_lt _ (by decide)) (Nat.mod_lt _ (by decide)) e
    obtain ⟨c3, e⟩ := peel_low_bit _ _ _ _ (Nat.mod_lt _ (by decide)) (Nat.mod_lt _ (by decide)) e
    obtain ⟨c4, e⟩ := peel_low_bit _ _ _ _ (Nat.mod_lt _ (by decide)) (Nat.mod_lt _ (by decide)) e
    obtain ⟨c5, e⟩ := peel_low_bit _ _ _ _ (Nat.mod_lt _ (by decide)) (Nat.mod_lt _ (by decide)) e
    obtain ⟨c6, e⟩ := peel_low_bit _ _ _ _ (Nat.mod_lt _ (by decide)) (Nat.mod_lt _ (by decide)) e
    obtain ⟨c7, e⟩ := peel_low_bit _ _ _ _ (Nat.mod_lt _ (by decide)) (Nat.mod_lt _ (by decide)) e
    apply Nat.eq_of_testBit_eq
    intro i
    by_cases hm : (18051867805491712 : Nat).testBit i = true
    · have hi : i < 64 := by
        by_contra hge
        rw [testBit_false_of_ge (by decide) (Nat.le_of_not_lt hge)] at hm
        exact Bool.noConfusion hm
      rcases bits i hi hm with rfl | rfl | rfl | rfl | rfl | rfl | rfl | rfl | rfl
      · rw [Nat.testBit_to_div_mod, Nat.testBit_to_div_mod, c0]
      · rw [Nat.testBit_to_div_mod, Nat.testBit_to_div_mod, c1]
      · rw [Nat.testBit_to_div_mod, Nat.testBit_to_div_mod, c2]
      · rw [Nat.testBit_to_div_mod, Nat.testBit_to_div_mod, c3]
      · rw [Nat.testBit_to_div_mod, Nat.testBit_to_div_mod, c4]
      · rw [Nat.testBit_to_div_mod, Nat.testBit_to_div_mod, c5]
      · rw [Nat.testBit_to_div_mod, Nat.testBit_to_div_mod, c6]
      · rw [Nat.testBit_to_div_mod, Nat.testBit_to_div_mod, c7]
      · rw [Nat.testBit_to_div_mod, Nat.testBit_to_div_mod, e]
    · rw [e1 i, e2 i]
      simp [hm]

/-- Witness of C14: the rook and the bishop on d4 (27), with their relevant-occupancy masks
and the indices that pack the relevant bits in ascending order. -/
theorem indexed_attack_table_lookup_witness :
    (27 < 64 ∧
      PerfectIndex 2260632246683648
        (fun o => o / 2 ^ 11 % 2 + 2 * (o / 2 ^ 19 % 2 + 2 * (o / 2 ^ 25 % 2 + 2 * (o / 2 ^ 26 % 2 + 2 * (o / 2 ^ 28 % 2 + 2 * (o / 2 ^ 29 % 2 + 2 * (o / 2 ^ 30 % 2 + 2 * (o / 2 ^ 35 % 2 + 2 * (o / 2 ^ 43 % 2 + 2 * (o / 2 ^ 51 % 2)))))))))) ∧
      PerfectIndex 18051867805491712
        (fun o => o / 2 ^ 9 % 2 + 2 * (o / 2 ^ 13 % 2 + 2 * (o / 2 ^ 18 % 2 + 2 * (o / 2 ^ 20 % 2 + 2 * (o / 2 ^ 34 % 2 + 2 * (o / 2 ^ 36 % 2 + 2 * (o / 2 ^ 41 % 2 + 2 * (o / 2 ^ 45 % 2 + 2 * (o / 2 ^ 54 % 2)))))))))) ∧
    ((∀ occ, occ &&& 2260632246683648 = occ →
      occ / 2 ^ 11 % 2 + 2 * (occ / 2 ^ 19 % 2 + 2 * (occ / 2 ^ 25 % 2 + 2 * (occ / 2 ^ 26 % 2 + 2 * (occ / 2 ^ 28 % 2 + 2 * (occ / 2 ^ 29 % 2 + 2 * (occ / 2 ^ 30 % 2 + 2 * (occ / 2 ^ 35 % 2 + 2 * (occ / 2 ^ 43 % 2 + 2 * (occ / 2 ^ 51 % 2))))))))) < 4096 ∧
      tableAt (Rattacks (fun _ => 2260632246683648)
          (fun _ o => o / 2 ^ 11 % 2 + 2 * (o / 2 ^ 19 % 2 + 2 * (o / 2 ^ 25 % 2 + 2 * (o / 2 ^ 26 % 2 + 2 * (o / 2 ^ 28 % 2 + 2 * (o / 2 ^ 29 % 2 + 2 * (o / 2 ^ 30 % 2 + 2 * (o / 2 ^ 35 % 2 + 2 * (o / 2 ^ 43 % 2 + 2 * (o / 2 ^ 51 % 2)))))))))))
        27 (occ / 2 ^ 11 % 2 + 2 * (occ / 2 ^ 19 % 2 + 2 * (occ / 2 ^ 25 % 2 + 2 * (occ / 2 ^ 26 % 2 + 2 * (occ / 2 ^ 28 % 2 + 2 * (occ / 2 ^ 29 % 2 + 2 * (occ / 2 ^ 30 % 2 + 2 * (occ / 2 ^ 35 % 2 + 2 * (occ / 2 ^ 43 % 2 + 2 * (occ / 2 ^ 51 % 2))))))))))
        = rook_landings 27 0 occ) ∧
    (∀ occ, occ &&& 18051867805491712 = occ →
      occ / 2 ^ 9 % 2 + 2 * (occ / 2 ^ 13 % 2 + 2 * (occ / 2 ^ 18 % 2 + 2 * (occ / 2 ^ 20 % 2 + 2 * (occ / 2 ^ 34 % 2 + 2 * (occ / 2 ^ 36 % 2 + 2 * (occ / 2 ^ 41 % 2 + 2 * (occ / 2 ^ 45 % 2 + 2 * (occ / 2 ^ 54 % 2)))))))) < 4096 ∧
      tableAt (Battacks (fun _ => 18051867805491712)
          (fun _ o => o / 2 ^ 9 % 2 + 2 * (o / 2 ^ 13 % 2 + 2 * (o / 2 ^ 18 % 2 + 2 * (o / 2 ^ 20 % 2 + 2 * (o / 2 ^ 34 % 2 + 2 * (o / 2 ^ 36 % 2 + 2 * (o / 2 ^ 41 % 2 + 2 * (o / 2 ^ 45 % 2 + 2 * (o / 2 ^ 54 % 2))))))))))
        27 (occ / 2 ^ 9 % 2 + 2 * (occ / 2 ^ 13 % 2 + 2 * (occ / 2 ^ 18 % 2 + 2 * (occ / 2 ^ 20 % 2 + 2 * (occ / 2 ^ 34 % 2 + 2 * (occ / 2 ^ 36 % 2 + 2 * (occ / 2 ^ 41 % 2 + 2 * (occ / 2 ^ 45 % 2 + 2 * (occ / 2 ^ 54 % 2)))))))))
        = bishop_landings 27 0 occ)) :=
  ⟨⟨by decide, perfectIndex_rook_d4, perfectIndex_bishop_d4⟩,
    indexed_attack_table_lookup (fun _ => 2260632246683648) (fun _ => 18051867805491712)
      (fun _ o => o / 2 ^ 11 % 2 + 2 * (o / 2 ^ 19 % 2 + 2 * (o / 2 ^ 25 % 2 + 2 * (o / 2 ^ 26 % 2 + 2 * (o / 2 ^ 28 % 2 + 2 * (o / 2 ^ 29 % 2 + 2 * (o / 2 ^ 30 % 2 + 2 * (o / 2 ^ 35 % 2 + 2 * (o / 2 ^ 43 % 2 + 2 * (o / 2 ^ 51 % 2))))))))))
      (fun _ o => o / 2 ^ 9 % 2 + 2 * (o / 2 ^ 13 % 2 + 2 * (o / 2 ^ 18 % 2 + 2 * (o / 2 ^ 20 % 2 + 2 * (o / 2 ^ 34 % 2 + 2 * (o / 2 ^ 36 % 2 + 2 * (o / 2 ^ 41 % 2 + 2 * (o / 2 ^ 45 % 2 + 2 * (o / 2 ^ 54 % 2)))))))))
      27 (by decide) perfectIndex_rook_d4 perfectIndex_bishop_d4⟩

end Lut
